import Mathlib

/-!
Verification of the SPL compiler back end (scope/type checking, code
generation, inlining, linearization) against its specification.

Each Python source function named in a claim is shallowly embedded as an
executable Lean definition over `List Char` / `String` and over inductive
types mirroring the AST tuples that the function is written against.
Machine integers are modelled as `Nat`/`Int` (the Python code never
overflows), fallible code returns `Option`/`Except`, and the mutable
`self.lines` buffers of the code generators (which grow append-only via
`emit`) are modelled in writer style: each method returns the lines it
appends together with the updated label counter.
-/

/-- Python regex class \s restricted to the characters Python treats as
whitespace in `str.strip`/`\s`: space, tab, newline, carriage return,
vertical tab, form feed. -/
def isPySpace (c : Char) : Bool :=
  c = ' ' || c = '\t' || c = '\n' || c = '\r' || c = '\x0b' || c = '\x0c'

/-- Python regex class \w over the ASCII texts this compiler manipulates:
letters, digits and underscore. -/
def isWordChar (c : Char) : Bool :=
  c.isAlphanum || c = '_'

/-- First character of the label regex `[A-Za-z_]`. -/
def isIdentStart (c : Char) : Bool :=
  c.isAlpha || c = '_'

/-- The decimal digit characters, as Python `str(int)` prints them.
Only applied to arguments below 10. -/
def decDigit : Nat → Char
  | 0 => '0' | 1 => '1' | 2 => '2' | 3 => '3' | 4 => '4'
  | 5 => '5' | 6 => '6' | 7 => '7' | 8 => '8' | _ => '9'

/-- Decimal digits of `n`, most significant first; `fuel` bounds the
recursion and any `fuel > n` computes the full representation (the wrapper
`pyDec` passes `n + 1`). -/
def pyDecAux : Nat → Nat → List Char
  | 0, _ => []
  | f + 1, n =>
    if n < 10 then [decDigit n]
    else pyDecAux f (n / 10) ++ [decDigit (n % 10)]

/-- Python `str(n)` for a nonnegative integer `n`. -/
def pyDec (n : Nat) : String :=
  String.mk (pyDecAux (n + 1) n)

/-- Python `str(v)` for an arbitrary integer `v`. -/
def intStr (v : Int) : String :=
  if v < 0 then "-" ++ pyDec v.natAbs else pyDec v.natAbs

/-- Numeric value of a list of decimal digit characters (used to prove that
`pyDec` is injective). -/
def decVal (cs : List Char) : Nat :=
  cs.foldl (fun a c => a * 10 + (c.toNat - 48)) 0

/-- Python `p in s` for strings: `pat` occurs contiguously in `cs`. -/
def containsSeq (pat : List Char) : List Char → Bool
  | [] => pat.isPrefixOf []
  | c :: cs => pat.isPrefixOf (c :: cs) || containsSeq pat cs

/-- Python `s.startswith(p)`, on the underlying character lists. -/
def strHasPrefix (p s : String) : Bool :=
  p.data.isPrefixOf s.data

namespace Cg

/-!
Model of `src/codegen.py` (class `CodeGen`).

The AST tuples are embedded as inductive types following the shapes the
file's own helpers document: `('VAR', name, line)`, `('ATOM_NUM', value,
line)` and so on.  The source-line fields are carried for diagnostics only
and never read by the code generator, so they are omitted here.  `emit`
appends to `self.lines`; we model every generating method as returning the
list of lines it appends plus the updated label counter `self._lab`.
-/

/-- ATOM nodes: `('ATOM_VAR', ('VAR', name, line))` or `('ATOM_NUM', value, line)`. -/
inductive Atom where
  | var (name : String)
  | num (val : Int)
deriving DecidableEq, Repr

/-- Unary operators of TERM_UNOP nodes: `'NEG'` and `'NOT'`. -/
inductive UnOp where
  | neg
  | not
deriving DecidableEq, Repr

/-- Binary operators of TERM_BINOP nodes. -/
inductive BinOp where
  | plus | minus | mult | div
  | eq | gt
  | and | or
deriving DecidableEq, Repr

/-- TERM nodes: `TERM_ATOM`, `TERM_UNOP`, `TERM_BINOP`. -/
inductive Term where
  | atom (a : Atom)
  | unop (op : UnOp) (t : Term)
  | binop (l : Term) (op : BinOp) (r : Term)
deriving DecidableEq, Repr

/-- OUTPUT nodes: `OUTPUT_STRING` or `OUTPUT_ATOM`. -/
inductive Output where
  | str (s : String)
  | atom (a : Atom)
deriving DecidableEq, Repr

/-- INSTR nodes of the SPL AST, one constructor per tag handled by
`CodeGen.gen_instr`. -/
inductive Instr where
  | halt
  | print (o : Output)
  | call (name : String) (args : List Atom)
  | assignCall (target : String) (fname : String) (args : List Atom)
  | assignTerm (target : String) (t : Term)
  | branchIf (cond : Term) (thenAlgo : List Instr)
  | branchIfElse (cond : Term) (thenAlgo elseAlgo : List Instr)
  | loopWhile (cond : Term) (body : List Instr)
  | loopDoUntil (body : List Instr) (cond : Term)

/-- Helper `_atom_to_str` of codegen.py. -/
def atom_to_str : Atom → String
  | .var n => n
  | .num v => intStr v

/-- Python format `f"{n:04d}"`: decimal, zero-padded to at least four digits. -/
def pad4 (n : Nat) : String :=
  let ds := pyDecAux (n + 1) n
  String.mk (List.replicate (4 - ds.length) '0' ++ ds)

/-- Method `new_label`: increments `self._lab` and returns
`f"{prefix}{self._lab:04d}"` with the updated counter. -/
def new_label (pfx : String) (lab : Nat) : String × Nat :=
  (pfx ++ pad4 (lab + 1), lab + 1)

/-- The arithmetic operator map `opmap` of `term_to_expr`. -/
def arithSym : BinOp → Option String
  | .plus => some "+"
  | .minus => some "-"
  | .mult => some "*"
  | .div => some "/"
  | _ => none

/-- The comparison map `cmpmap` of `cond_goto_true`/`cond_goto_false`. -/
def cmpSym : BinOp → Option String
  | .eq => some "="
  | .gt => some ">"
  | _ => none

/-- Method `term_to_expr`: renders a numeric term; `none` models the
`ValueError` raised when a boolean construct appears in a numeric context. -/
def term_to_expr : Term → Option String
  | .atom a => some (atom_to_str a)
  | .unop .neg sub => (term_to_expr sub).map (fun s => "-(" ++ s ++ ")")
  | .unop .not _ => none
  | .binop l op r =>
    match arithSym op with
    | some sym => do
      let ls ← term_to_expr l
      let rs ← term_to_expr r
      pure ("(" ++ ls ++ " " ++ sym ++ " " ++ rs ++ ")")
    | none => none

/-- Methods `cond_goto_true` (sense = `true`) and `cond_goto_false`
(sense = `false`) of codegen.py, fused into one structurally recursive
function: each calls the other only on strict subterms.  The result is the
appended line list and the updated label counter; `none` models a
propagated `ValueError` from `term_to_expr`. -/
def cond_goto (sense : Bool) (t : Term) (lab : String) (n : Nat) :
    Option (List String × Nat) :=
  match sense, t with
  | true, .atom a =>
    match a with
    | .num v => if v ≠ 0 then some (["GOTO " ++ lab], n) else some ([], n)
    | .var _ => some ([], n)
  | true, .unop .not sub => cond_goto false sub lab n
  | true, .unop .neg _ => some ([], n)
  | true, .binop l op r =>
    match cmpSym op with
    | some sym => do
      let ls ← term_to_expr l
      let rs ← term_to_expr r
      pure (["IF " ++ ls ++ " " ++ sym ++ " " ++ rs ++ " THEN " ++ lab], n)
    | none =>
      match op with
      | .and =>
        let (mid, n1) := new_label "T" n
        do
          let (dl, n2) ← cond_goto true l mid n1
          let (dr, n3) ← cond_goto true r lab n2
          pure (dl ++ ("REM " ++ mid) :: dr, n3)
      | .or => do
        let (dl, n1) ← cond_goto true l lab n
        let (dr, n2) ← cond_goto true r lab n1
        pure (dl ++ dr, n2)
      | _ => some ([], n)
  | false, .unop .not sub => cond_goto true sub lab n
  | false, .binop l op r =>
    match cmpSym op with
    | some sym =>
      let (lskip, n1) := new_label "S" n
      do
        let ls ← term_to_expr l
        let rs ← term_to_expr r
        pure (["IF " ++ ls ++ " " ++ sym ++ " " ++ rs ++ " THEN " ++ lskip,
               "GOTO " ++ lab,
               "REM " ++ lskip], n1)
    | none =>
      match op with
      | .and => do
        let (dl, n1) ← cond_goto false l lab n
        let (dr, n2) ← cond_goto false r lab n1
        pure (dl ++ dr, n2)
      | .or =>
        let (ldone, n1) := new_label "D" n
        do
          let (dl, n2) ← cond_goto true l ldone n1
          let (dr, n3) ← cond_goto false r lab n2
          pure (dl ++ dr ++ [("REM " ++ ldone)], n3)
      | _ => some ([], n)
  | false, .atom _ => some ([], n)
  | false, .unop .neg _ => some ([], n)

/-- Method `cond_goto_true`: emit jumps taking `t`'s true branch to `lab`,
false = fall through. -/
def cond_goto_true (t : Term) (lab : String) (n : Nat) : Option (List String × Nat) :=
  cond_goto true t lab n

/-- Method `cond_goto_false`: emit jumps taking `t`'s false branch to `lab`. -/
def cond_goto_false (t : Term) (lab : String) (n : Nat) : Option (List String × Nat) :=
  cond_goto false t lab n

mutual

/-- Method `gen_instr` of codegen.py in writer style: the lines the call
appends to `self.lines`, with the updated label counter. -/
def gen_instr : Instr → Nat → Option (List String × Nat)
  | .halt, n => some (["STOP"], n)
  | .print o, n =>
    match o with
    | .str s => some (["PRINT \"" ++ s ++ "\""], n)
    | .atom a => some (["PRINT " ++ atom_to_str a], n)
  | .call name args, n =>
    some (["CALL " ++ name ++ " ( " ++ String.intercalate " " (args.map atom_to_str) ++ " )"], n)
  | .assignCall tgt fname args, n =>
    some ([tgt ++ " = CALL " ++ fname ++ " ( " ++
           String.intercalate " " (args.map atom_to_str) ++ " )"], n)
  | .assignTerm tgt t, n =>
    (term_to_expr t).map (fun rhs => ([tgt ++ " = " ++ rhs], n))
  | .branchIf c thenAlgo, n =>
    let (lthen, n1) := new_label "T" n
    let (lexit, n2) := new_label "X" n1
    do
      let (dc, n3) ← cond_goto_true c lthen n2
      let (dt, n4) ← gen_algo thenAlgo n3
      pure (dc ++ ("GOTO " ++ lexit) :: ("REM " ++ lthen) :: dt ++ [("REM " ++ lexit)], n4)
  | .branchIfElse c thenAlgo elseAlgo, n =>
    let (lthen, n1) := new_label "T" n
    let (lexit, n2) := new_label "X" n1
    do
      let (dc, n3) ← cond_goto_true c lthen n2
      let (de, n4) ← gen_algo elseAlgo n3
      let (dt, n5) ← gen_algo thenAlgo n4
      pure (dc ++ de ++ ("GOTO " ++ lexit) :: ("REM " ++ lthen) :: dt ++
            [("REM " ++ lexit)], n5)
  | .loopWhile c body, n =>
    let (lstart, n1) := new_label "W" n
    let (lbody, n2) := new_label "WB" n1
    let (lexit, n3) := new_label "WX" n2
    do
      let (dc, n4) ← cond_goto_true c lbody n3
      let (db, n5) ← gen_algo body n4
      pure (("REM " ++ lstart) :: dc ++ ("GOTO " ++ lexit) :: ("REM " ++ lbody) :: db ++
            [("GOTO " ++ lstart), ("REM " ++ lexit)], n5)
  | .loopDoUntil body c, n =>
    let (lstart, n1) := new_label "D" n
    let (lexit, n2) := new_label "DX" n1
    do
      let (db, n3) ← gen_algo body n2
      let (dc, n4) ← cond_goto_true c lexit n3
      pure (("REM " ++ lstart) :: db ++ dc ++ [("GOTO " ++ lstart), ("REM " ++ lexit)], n4)

/-- Method `gen_algo`: generates each instruction of the list in order. -/
def gen_algo : List Instr → Nat → Option (List String × Nat)
  | [], n => some ([], n)
  | i :: rest, n => do
    let (d1, n1) ← gen_instr i n
    let (d2, n2) ← gen_algo rest n1
    pure (d1 ++ d2, n2)

end

end Cg

namespace Bas

/-!
Model of `src/basicify.py` (`intermediate_to_basic`).

The function is string-level Python: it splits the intermediate code into
lines, numbers the non-blank ones, collects `REM <Label>` lines through
`LABEL_RE`, and rewrites `GOTO <Label>` / `THEN <Label>` occurrences via
`GOTO_RE.sub` / `THEN_RE.sub`.  The model works on `List Char` with the
three regexes implemented as executable scanners; `subJumpAux` mirrors
`re.sub`'s left-to-right non-overlapping scan (the `\b` on the left is
tracked as "previous character is a word character", the `\b` on the right
is automatic because `\w*` is matched maximally).  Scanner fuel is the
input length, which every step strictly consumes.
-/

/-- Python `str.rstrip()` on a line's characters. -/
def pyRstrip (cs : List Char) : List Char :=
  (cs.reverse.dropWhile isPySpace).reverse

/-- Python `str.strip()` on a line's characters. -/
def pyStripL (cs : List Char) : List Char :=
  pyRstrip (cs.dropWhile isPySpace)

/-- Python `str.split(sep)` for a one-character separator. -/
def splitCh (sep : Char) : List Char → List (List Char)
  | [] => [[]]
  | c :: rest =>
    if c = sep then [] :: splitCh sep rest
    else
      match splitCh sep rest with
      | r :: rs => (c :: r) :: rs
      | [] => [[c]]

/-- Python `str.splitlines()` for text whose only line separator is `'\n'`
(the only separator the pipeline's intermediate code contains).  It differs
from `splitlines` only in yielding a trailing empty piece when the text ends
in `'\n'`; that piece is blank, and `intermediate_to_basic` filters blank
lines away immediately. -/
def splitNl (cs : List Char) : List (List Char) :=
  splitCh '\n' cs

/-- Join with `'\n'`, Python `"\n".join(...)`. -/
def joinNl : List (List Char) → List Char
  | [] => []
  | [l] => l
  | l :: rest => l ++ '\n' :: joinNl rest

/-- Regex fragment `[A-Za-z_]\w*` matched maximally at the head of the
input: the identifier's characters and the rest. -/
def takeIdent : List Char → Option (List Char × List Char)
  | [] => none
  | c :: cs =>
    if isIdentStart c then some (c :: cs.takeWhile isWordChar, cs.dropWhile isWordChar)
    else none

/-- Regex `LABEL_RE = ^\s*REM\s+([A-Za-z_]\w*)\s*$` applied to a whole
line, returning the captured label. -/
def matchLabel (cs : List Char) : Option (List Char) :=
  if ['R', 'E', 'M'].isPrefixOf (cs.dropWhile isPySpace) then
    if ((cs.dropWhile isPySpace).drop 3).takeWhile isPySpace = [] then none
    else
      match takeIdent (((cs.dropWhile isPySpace).drop 3).dropWhile isPySpace) with
      | some (lab, rest) => if rest.all isPySpace then some lab else none
      | none => none
  else none

/-- Attempt to match `kw\s+([A-Za-z_]\w*)` at the head of `cs` (the `\b`
before `kw` is the caller's responsibility).  Returns the captured label
and the rest of the input after the match. -/
def tryJump (kw : List Char) (cs : List Char) : Option (List Char × List Char) :=
  if kw.isPrefixOf cs then
    if (cs.drop kw.length).takeWhile isPySpace = [] then none
    else takeIdent ((cs.drop kw.length).dropWhile isPySpace)
  else none

/-- Lookup in the label table with Python-dict semantics: the latest
binding of a key wins. -/
def lookupTbl (tbl : List (List Char × Nat)) (lab : List Char) : Option Nat :=
  (tbl.reverse.find? (fun p => p.1 == lab)).map (fun p => p.2)

/-- One pass of `re.sub` for `GOTO_RE`/`THEN_RE` with the replacement
functions `repl_goto`/`repl_then` of basicify.py: scan left to right; at a
position not preceded by a word character try the match, and on success
emit `kw ++ " " ++ (label_to_num.get(lab, lab))` and continue after the
match.  `fuel` bounds the scan; every step consumes at least one input
character, so the wrapper's `cs.length` never runs out. -/
def subJumpAux (kw : List Char) (tbl : List (List Char × Nat)) :
    Nat → Bool → List Char → List Char
  | 0, _, cs => cs
  | _ + 1, _, [] => []
  | f + 1, prevW, c :: cs =>
    if prevW then c :: subJumpAux kw tbl f (isWordChar c) cs
    else
      match tryJump kw (c :: cs) with
      | some (lab, rest) =>
        let rep :=
          match lookupTbl tbl lab with
          | some num => pyDecAux (num + 1) num
          | none => lab
        kw ++ ' ' :: (rep ++ subJumpAux kw tbl f true rest)
      | none => c :: subJumpAux kw tbl f (isWordChar c) cs

/-- `GOTO_RE.sub(repl_goto, ·)` resp. `THEN_RE.sub(repl_then, ·)` on one
line, for `kw` = `GOTO` resp. `THEN`. -/
def subJump (kw : List Char) (tbl : List (List Char × Nat)) (cs : List Char) : List Char :=
  subJumpAux kw tbl cs.length false cs

/-- The literal `GOTO` of `GOTO_RE`. -/
def GOTOkw : List Char := ['G', 'O', 'T', 'O']

/-- The literal `THEN` of `THEN_RE`. -/
def THENkw : List Char := ['T', 'H', 'E', 'N']

/-- Step 1 of `intermediate_to_basic`: keep non-blank lines, strip right
whitespace. -/
def rawLines (inter : List Char) : List (List Char) :=
  ((splitNl inter).filter (fun ln => !ln.all isPySpace)).map pyRstrip

/-- Step 2's numbering loop: the i-th line of the stream gets address
`n + i * step`. -/
def numberLines (n step : Nat) : List (List Char) → List (Nat × List Char)
  | [] => []
  | l :: rest => (n, l) :: numberLines (n + step) step rest

/-- Step 2's label discovery: every `REM <Label>` line binds the label to
that line's address (a later line overrides an earlier one, as in a dict). -/
def labelTable (numbered : List (Nat × List Char)) : List (List Char × Nat) :=
  numbered.foldl
    (fun tbl p =>
      match matchLabel p.2 with
      | some lab => tbl ++ [(lab, p.1)]
      | none => tbl)
    []

/-- Step 3's per-line patch: first `GOTO_RE.sub`, then `THEN_RE.sub`. -/
def patchLine (tbl : List (List Char × Nat)) (cs : List Char) : List Char :=
  subJump THENkw tbl (subJump GOTOkw tbl cs)

/-- Step 3's output line `f"{num} {patched}"`. -/
def outLine (tbl : List (List Char × Nat)) (p : Nat × List Char) : List Char :=
  pyDecAux (p.1 + 1) p.1 ++ ' ' :: patchLine tbl p.2

/-- The list of output lines of `intermediate_to_basic` before the final
join (defaults in the source: `start = 10`, `step = 10`). -/
def basicLines (inter : List Char) (start step : Nat) : List (List Char) :=
  let numbered := numberLines start step (rawLines inter)
  numbered.map (outLine (labelTable numbered))

/-- Public entry `intermediate_to_basic(inter_code, start, step)`. -/
def intermediate_to_basic (inter_code : String) (start step : Nat) : String :=
  String.mk (joinNl (basicLines inter_code.data start step))

/-- The line emitted by the code generators for an unconditional jump. -/
def gotoLine (lab : List Char) : List Char :=
  'G' :: 'O' :: 'T' :: 'O' :: ' ' :: lab

/-- The line emitted by the code generators for a conditional jump, with the
comparison text `c`. -/
def ifLine (c lab : List Char) : List Char :=
  'I' :: 'F' :: ' ' :: (c ++ ' ' :: 'T' :: 'H' :: 'E' :: 'N' :: ' ' :: lab)

/-- A label as `LABEL_RE`, `GOTO_RE` and `THEN_RE` capture it:
`[A-Za-z_]\w*`. -/
def wfIdent : List Char → Bool
  | [] => false
  | c :: cs => isIdentStart c && cs.all isWordChar

/-- Specification helper for the `re.sub` scanner: the word-boundary state
(`previous character is a word character`) after reading a prefix, starting
from state `b`. -/
def prevWAfter (b : Bool) : List Char → Bool
  | [] => b
  | c :: cs => prevWAfter (isWordChar c) cs

end Bas

namespace Inl

/-!
Model of the fresh-name allocation of `src/codegen_inline.py`
(`InlineCodeGen.fresh_var`, as used by `_inline_proc` and `_inline_func`).
The class owns a single counter `self._v` for the whole compilation; every
parameter and local of every inlined call site gets one `fresh_var` call,
in program order, also under nested and recursive expansion.
-/

/-- Method `fresh_var`: `self._v += 1; return f"{kind}{self._v}{base}"`,
with the updated counter made explicit. -/
def fresh_var (v : Nat) (base kind : String) : String × Nat :=
  (kind ++ pyDec (v + 1) ++ base, v + 1)

/-- The names produced by a sequence of `fresh_var` calls starting at
counter value `v`; each request is a `(base, kind)` pair. -/
def allocSeq (v : Nat) : List (String × String) → List String × Nat
  | [] => ([], v)
  | (b, k) :: rest =>
    let (nm, v1) := fresh_var v b k
    let (nms, v2) := allocSeq v1 rest
    (nm :: nms, v2)

/-- The requests one call site issues in `_inline_proc`/`_inline_func`:
one per parameter with kind `"P"`, then one per local with kind `"L"`. -/
def siteReqs (params locals_ : List String) : List (String × String) :=
  params.map (fun p => (p, "P")) ++ locals_.map (fun l => (l, "L"))

/-- All fresh names a compilation allocates: the call sites' requests in
expansion order, threaded through the single counter. -/
def compile_fresh (v : Nat) (sites : List (List String × List String)) :
    List String × Nat :=
  allocSeq v (List.flatten (sites.map (fun s => siteReqs s.1 s.2)))

/-- A parameter or local name as the SPL lexer tokenizes it (regex
`[a-z][a-z]*[0-9]*`) never starts with a digit; this is all freshness
needs from the base names. -/
def baseOk (s : String) : Bool :=
  match s.data with
  | [] => true
  | c :: _ => !c.isDigit

end Inl

namespace Sem

/-!
Model of the `TypeChecker` class of `src/semantics.py` (together with the
parts of its `Symtab` it reads).  The checker's mutable state is the
`var_decls_by_node` table (whose per-declaration `type` fields `set_type`
updates), the `usage_to_decl` map and the accumulated error list; the
symbol aggregates built by `build_symbols` are read-only here.  Types are
the source's strings `'int'`, `'bool'`, `'unknown'` (with the sentinel
`'error'` from `unify`).
-/

/-- One entry of `sym.var_decls_by_node`. -/
structure DeclInfo where
  name : String
  decl_kind : String
  scope_label : String
  ty : String
deriving DecidableEq, Repr

/-- The parts of `Symtab` that `TypeChecker` reads: global name to
declaration node id, procedure/function name to (parameter names, local
names), and main's variable names. -/
structure Symtab where
  globals : List (String × Nat)
  procs : List (String × (List String × List String))
  funcs : List (String × (List String × List String))
  mainVars : List String

/-- The context dict built by `TypeChecker.run` for each algorithm. -/
structure Ctx where
  kind : String
  cname : String
  params : List String
  locals : List String
  scope_label : String

/-- The checker's mutable state. -/
structure St where
  decls : List (Nat × DeclInfo)
  usage : List (Nat × Nat)
  errs : List String

/-- Method `Errors.add`. -/
def addErr (st : St) (m : String) : St :=
  { st with errs := st.errs ++ [m] }

/-- Python `d[name]` on a string-keyed dict with unique keys. -/
def lookupA {α : Type} (xs : List (String × α)) (k : String) : Option α :=
  (xs.find? (fun p => p.1 == k)).map (fun p => p.2)

/-- Method `find_decl_node`: the first entry of `var_decls_by_node` with
this name, declaration kind and scope label. -/
def find_decl_node (decls : List (Nat × DeclInfo)) (name scope_label dk : String) :
    Option Nat :=
  (decls.find?
    (fun p => p.2.name == name && p.2.decl_kind == dk && p.2.scope_label == scope_label)).map
    (fun p => p.1)

/-- Method `resolve_var` (its `usage_node` parameter is dead in the source:
the id `nid_use` is computed and never used, so it is omitted here).
Returns the declaration node id by SPL scope rules, else `none` after
collecting an undeclared-variable error; the pass is never aborted. -/
def resolve_var (sym : Symtab) (ctx : Ctx) (name : String) (st : St) :
    Option Nat × St :=
  if ctx.kind == "proc" || ctx.kind == "func" then
    if ctx.params.contains name then
      (find_decl_node st.decls name ctx.scope_label "param", st)
    else if ctx.locals.contains name then
      (find_decl_node st.decls name ctx.scope_label "local", st)
    else
      match lookupA sym.globals name with
      | some nid => (some nid, st)
      | none =>
        (none, addErr st ("Undeclared variable: '" ++ name ++ "' in " ++ ctx.scope_label))
  else if ctx.kind == "main" then
    if sym.mainVars.contains name then
      (find_decl_node st.decls name "Main" "main", st)
    else
      match lookupA sym.globals name with
      | some nid => (some nid, st)
      | none =>
        (none, addErr st ("Undeclared variable: '" ++ name ++ "' in " ++ ctx.scope_label))
  else
    (none, addErr st ("Undeclared variable: '" ++ name ++ "' in " ++ ctx.scope_label))

/-- Static method `unify`. -/
def unify (a b : String) : String :=
  if a == b then a
  else if a == "unknown" then b
  else if b == "unknown" then a
  else "error"

/-- Dict read `var_decls_by_node[nid]`. -/
def declGet (decls : List (Nat × DeclInfo)) (nid : Nat) : Option DeclInfo :=
  (decls.find? (fun p => p.1 == nid)).map (fun p => p.2)

/-- Dict write `var_decls_by_node[nid]['type'] = ty`. -/
def declSetTy (decls : List (Nat × DeclInfo)) (nid : Nat) (ty : String) :
    List (Nat × DeclInfo) :=
  decls.map (fun p => if p.1 == nid then (p.1, { p.2 with ty := ty }) else p)

/-- Method `set_type`.  The source reads `var_decls_by_node[decl_nid]` and
would raise `KeyError` if the id were absent; ids reaching `set_type` come
from resolution over that same table, so the total model leaves the state
unchanged in that unreachable case. -/
def set_type (decl_nid : Option Nat) (ty : String) (st : St) : St :=
  match decl_nid with
  | none => st
  | some nid =>
    match declGet st.decls nid with
    | none => st
    | some d =>
      let newTy := unify d.ty ty
      if newTy == "error" then
        addErr st ("Type mismatch for '" ++ d.name ++ "': cannot unify " ++ d.ty ++
          " with " ++ ty)
      else { st with decls := declSetTy st.decls nid newTy }

/-- ATOM nodes as semantics.py reads them; a variable atom carries the
NodeIDs id of its `('VAR', name)` node, used as key of `usage_to_decl`. -/
inductive SAtom where
  | num (v : Int)
  | var (nid : Nat) (name : String)

/-- TERM nodes; the operator tags are the source's strings. -/
inductive STerm where
  | atom (a : SAtom)
  | unop (op : String) (t : STerm)
  | binop (l : STerm) (op : String) (r : STerm)

/-- OUTPUT nodes. -/
inductive SOutput where
  | str (s : String)
  | atom (a : SAtom)

/-- INSTR nodes as `check_instr` dispatches on them. -/
inductive SInstr where
  | halt
  | print (o : SOutput)
  | call (name : String) (args : List SAtom)
  | assignCall (lhs : String) (fname : String) (args : List SAtom)
  | assignTerm (lhs : String) (t : STerm)
  | loopWhile (c : STerm) (b : List SInstr)
  | loopDoUntil (b : List SInstr) (c : STerm)
  | branchIf (c : STerm) (b : List SInstr)
  | branchIfElse (c : STerm) (b1 b2 : List SInstr)

/-- Method `check_atom`.  The source reads the resolved declaration's
current type from `var_decls_by_node`; the total model's `getD "unknown"`
covers the table-inconsistency case in which the source would raise. -/
def check_atom (sym : Symtab) (ctx : Ctx) : SAtom → St → String × St
  | .num _, st => ("int", st)
  | .var nid name, st =>
    match resolve_var sym ctx name st with
    | (some decl_nid, st1) =>
      let st2 := { st1 with usage := st1.usage ++ [(nid, decl_nid)] }
      (((declGet st2.decls decl_nid).map (fun d => d.ty)).getD "unknown", st2)
    | (none, st1) => ("unknown", st1)

/-- Python `t not in (INT, UNKNOWN)`. -/
def notIntU (t : String) : Bool :=
  !(t == "int" || t == "unknown")

/-- Python `t not in (BOOL, UNKNOWN)`. -/
def notBoolU (t : String) : Bool :=
  !(t == "bool" || t == "unknown")

/-- Method `check_term`. -/
def check_term (sym : Symtab) (ctx : Ctx) : STerm → St → String × St
  | .atom a, st => check_atom sym ctx a st
  | .unop op sub, st =>
    let (t, st1) := check_term sym ctx sub st
    if op == "NEG" then
      ("int", if notIntU t then addErr st1 "Type error: 'neg' expects int" else st1)
    else if op == "NOT" then
      ("bool", if notBoolU t then addErr st1 "Type error: 'not' expects bool" else st1)
    else ("unknown", st1)
  | .binop l op r, st =>
    let (tl, st1) := check_term sym ctx l st
    let (tr, st2) := check_term sym ctx r st1
    if op == "PLUS" || op == "MINUS" || op == "MULT" || op == "DIV" then
      ("int",
        if notIntU tl || notIntU tr then
          addErr st2 ("Type error: '" ++ op.toLower ++ "' expects int,int")
        else st2)
    else if op == "EQ" || op == "GT" then
      ("bool",
        if notIntU tl || notIntU tr then
          addErr st2 ("Type error: '" ++ op.toLower ++ "' expects int,int")
        else st2)
    else if op == "AND" || op == "OR" then
      ("bool",
        if notBoolU tl || notBoolU tr then
          addErr st2 ("Type error: '" ++ op.toLower ++ "' expects bool,bool")
        else st2)
    else ("unknown", st2)

/-- Method `expect_bool`. -/
def expect_bool (sym : Symtab) (ctx : Ctx) (t : STerm) (st : St) : St :=
  let (ty, st1) := check_term sym ctx t st
  if notBoolU ty then addErr st1 "Type error: condition must be boolean" else st1

/-- The `for a in args: ... check_atom` loop of `check_instr` (the tag
guard of the source is constantly true on this closed atom type). -/
def check_args (sym : Symtab) (ctx : Ctx) : List SAtom → St → St
  | [], st => st
  | a :: rest, st => check_args sym ctx rest (check_atom sym ctx a st).2

mutual

/-- Method `check_instr`. -/
def check_instr (sym : Symtab) (ctx : Ctx) : SInstr → St → St
  | .halt, st => st
  | .print o, st =>
    match o with
    | .atom a => (check_atom sym ctx a st).2
    | .str _ => st
  | .call name args, st =>
    let st1 :=
      match lookupA sym.procs name with
      | none => addErr st ("Call error: '" ++ name ++ "' is not a procedure")
      | some info =>
        if info.1.length != args.length then
          addErr st ("Arity error in proc '" ++ name ++ "': expected " ++
            pyDec info.1.length ++ ", got " ++ pyDec args.length)
        else st
    check_args sym ctx args st1
  | .assignCall lhs fname args, st =>
    match resolve_var sym ctx lhs st with
    | (none, st1) => st1
    | (some _, st1) =>
      let st2 :=
        match lookupA sym.funcs fname with
        | none => addErr st1 ("Call error: '" ++ fname ++ "' is not a function")
        | some info =>
          if info.1.length != args.length then
            addErr st1 ("Arity error in func '" ++ fname ++ "': expected " ++
              pyDec info.1.length ++ ", got " ++ pyDec args.length)
          else st1
      check_args sym ctx args st2
  | .assignTerm lhs t, st =>
    match resolve_var sym ctx lhs st with
    | (none, st1) => st1
    | (some decl_nid, st1) =>
      let (ty, st2) := check_term sym ctx t st1
      set_type (some decl_nid) ty st2
  | .loopWhile c b, st => check_algo sym ctx b (expect_bool sym ctx c st)
  | .loopDoUntil b c, st => expect_bool sym ctx c (check_algo sym ctx b st)
  | .branchIf c b, st => check_algo sym ctx b (expect_bool sym ctx c st)
  | .branchIfElse c b1 b2, st =>
    check_algo sym ctx b2 (check_algo sym ctx b1 (expect_bool sym ctx c st))

/-- Method `check_algo`. -/
def check_algo (sym : Symtab) (ctx : Ctx) : List SInstr → St → St
  | [], st => st
  | i :: rest, st => check_algo sym ctx rest (check_instr sym ctx i st)

end

end Sem

namespace Tck

/-!
Model of the `TypeChecker` class of `src/type_checker.py`, at the term and
instruction level its claims cite.  The file reads terms and instructions
by the id-less tuple positions (`term[1]` is `TERM_ATOM`'s atom, `instr[1]`
and `instr[2]` are `ASSIGN_TERM`'s variable and term) while its helpers
document id-carrying `('VAR', node_id, name)` and `('ATOM_VAR', node_id,
var)` nodes; the model uses exactly those shapes.  The `node_id` slot of
`TypeCheckerError` is filled by `_get_node_id` with whatever sits at index
1 of the node (arbitrary data on these shapes) and is a diagnostic only,
so the model's errors carry type, message, location and context. -/

/-- Enum `TypeCheckerErrorType`. -/
inductive ErrType where
  | TYPE_MISMATCH
  | INVALID_OPERATION
  | UNDECLARED_TYPE
  | INVALID_RETURN_TYPE
  | INVALID_CONDITION_TYPE
  | INVALID_ASSIGNMENT_TYPE
deriving DecidableEq, Repr

/-- Class `TypeCheckerError`, without its diagnostic `node_id`/`traceback`
fields. -/
structure TkError where
  etype : ErrType
  message : String
  location : Option String
  context : Option String
deriving DecidableEq, Repr

/-- A `('VAR', node_id, name)` node. -/
structure TkVar where
  nid : Nat
  name : String
deriving DecidableEq, Repr

/-- ATOM nodes `('ATOM_VAR', node_id, var)` and `('ATOM_NUM', node_id, value)`. -/
inductive TkAtom where
  | var (nid : Nat) (v : TkVar)
  | num (nid : Nat) (value : Int)
deriving DecidableEq, Repr

/-- TERM nodes (id-less, as `_check_term` indexes them). -/
inductive TkTerm where
  | atom (a : TkAtom)
  | unop (op : String) (t : TkTerm)
  | binop (l : TkTerm) (op : String) (r : TkTerm)
deriving DecidableEq, Repr

/-- OUTPUT nodes. -/
inductive TkOutput where
  | str (s : String)
  | atom (a : TkAtom)
deriving DecidableEq, Repr

/-- INSTR nodes as `_check_instr` dispatches on them. -/
inductive TkInstr where
  | halt
  | print (o : TkOutput)
  | call (name : String) (args : List TkAtom)
  | assignCall (v : TkVar) (name : String) (args : List TkAtom)
  | assignTerm (v : TkVar) (t : TkTerm)
  | loopWhile (t : TkTerm) (a : List TkInstr)
  | loopDoUntil (a : List TkInstr) (t : TkTerm)
  | branchIf (t : TkTerm) (a : List TkInstr)
  | branchIfElse (t : TkTerm) (a0 a1 : List TkInstr)

/-- Method `_get_var_type`: every `VAR` node is numeric. -/
def get_var_type (_ : TkVar) : String :=
  "numeric"

/-- Method `_check_atom`: a variable reference reads `_get_var_type`, a
number is numeric. -/
def check_atom : TkAtom → String
  | .var _ v => get_var_type v
  | .num _ _ => "numeric"

/-- Method `_get_unop_type`. -/
def get_unop_type (op : String) : String :=
  if op == "NEG" then "numeric"
  else if op == "NOT" then "boolean"
  else "unknown"

/-- Method `_get_binop_type`. -/
def get_binop_type (op : String) : String :=
  if ["PLUS", "MINUS", "MULT", "DIV"].contains op then "numeric"
  else if ["OR", "AND"].contains op then "boolean"
  else if ["GT", "EQ", "LT", "LE", "GE", "NE"].contains op then "comparison"
  else "unknown"

mutual

/-- Method `_check_term`: the term's type, with any errors found on the
way appended to the error list. -/
def check_term : TkTerm → List TkError → String × List TkError
  | .atom a, es => (check_atom a, es)
  | .unop op sub, es => check_unop_term op sub es
  | .binop l op r, es => check_binop_term l op r es
termination_by t _ => 2 * sizeOf t
decreasing_by all_goals (simp_wf <;> omega)

/-- Method `_check_unop_term`. -/
def check_unop_term (op : String) (sub : TkTerm) (es : List TkError) :
    String × List TkError :=
  let ut := get_unop_type op
  let (stt, es1) := check_term sub es
  if ut == "numeric" && stt == "numeric" then ("numeric", es1)
  else if ut == "boolean" && stt == "boolean" then ("boolean", es1)
  else
    ("unknown", es1 ++
      [⟨.TYPE_MISMATCH, "Unary operator " ++ op ++ " expects " ++ ut ++ ", got " ++ stt,
        some ("unary operator '" ++ op ++ "' expression"),
        some ("operand of " ++ op ++ " operator")⟩])
termination_by 2 * sizeOf sub + 1
decreasing_by all_goals (simp_wf <;> omega)

/-- Method `_check_binop_term`. -/
def check_binop_term (l : TkTerm) (op : String) (r : TkTerm) (es : List TkError) :
    String × List TkError :=
  let bt := get_binop_type op
  let (t1, es1) := check_term l es
  let (t2, es2) := check_term r es1
  if bt == "numeric" && t1 == "numeric" && t2 == "numeric" then ("numeric", es2)
  else if bt == "boolean" && t1 == "boolean" && t2 == "boolean" then ("boolean", es2)
  else if bt == "comparison" && t1 == "numeric" && t2 == "numeric" then ("boolean", es2)
  else
    ("unknown", es2 ++
      [⟨.TYPE_MISMATCH,
        "Binary operator " ++ op ++ " expects " ++ bt ++ " operands, got " ++ t1 ++
          " and " ++ t2,
        some ("binary operator '" ++ op ++ "' expression"),
        some ("operands of " ++ op ++ " operator")⟩])
termination_by 2 * (sizeOf l + sizeOf r) + 1
decreasing_by all_goals (simp_wf <;> omega)

end

/-- Method `_check_term_numeric`. -/
def check_term_numeric (t : TkTerm) (es : List TkError) : Bool × List TkError :=
  let (ty, es1) := check_term t es
  if ty != "numeric" then
    (false, es1 ++
      [⟨.TYPE_MISMATCH, "Expected numeric type, got " ++ ty,
        some "assignment statement", some "right-hand side expression"⟩])
  else (true, es1)

/-- Method `_check_term_boolean`. -/
def check_term_boolean (t : TkTerm) (es : List TkError) : Bool × List TkError :=
  let (ty, es1) := check_term t es
  if ty != "boolean" then
    (false, es1 ++
      [⟨.INVALID_CONDITION_TYPE, "Expected boolean type for condition, got " ++ ty,
        some "conditional statement", some "condition expression"⟩])
  else (true, es1)

/-- Method `_check_atom_numeric`.  On this closed atom type `check_atom`
is constantly `"numeric"`, so the error branch (whose location text the
source builds from the atom) is unreachable; the model renders the
variable-name parenthesis for variable atoms as the source intends. -/
def check_atom_numeric (a : TkAtom) (es : List TkError) : Bool × List TkError :=
  let ty := check_atom a
  if ty != "numeric" then
    (false, es ++
      [⟨.INVALID_RETURN_TYPE, "Function return value must be numeric, got " ++ ty,
        some ("return statement" ++
          (match a with
           | .var _ v => " (variable '" ++ v.name ++ "')"
           | .num _ _ => "")),
        some "function return value"⟩])
  else (true, es)

/-- Method `_check_output`. -/
def check_output (o : TkOutput) (es : List TkError) : Bool × List TkError :=
  match o with
  | .atom a => check_atom_numeric a es
  | .str _ => (true, es)

/-- Method `_check_input`: all argument atoms must be numeric, stopping at
the first failure. -/
def check_input : List TkAtom → List TkError → Bool × List TkError
  | [], es => (true, es)
  | a :: rest, es =>
    match check_atom_numeric a es with
    | (false, es1) => (false, es1)
    | (true, es1) => check_input rest es1

mutual

/-- Method `_check_instr` (the constant-true `_check_name_type_less` is
kept as the literal `true` of the source's conjunctions). -/
def check_instr : TkInstr → List TkError → Bool × List TkError
  | .halt, es => (true, es)
  | .print o, es => check_output o es
  | .call _ args, es =>
    let (inOk, es1) := check_input args es
    (true && inOk, es1)
  | .assignCall v _ args, es =>
    let varOk := get_var_type v == "numeric"
    let (inOk, es1) := check_input args es
    (varOk && true && inOk, es1)
  | .assignTerm v t, es =>
    let varOk := get_var_type v == "numeric"
    let (tOk, es1) := check_term_numeric t es
    (varOk && tOk, es1)
  | .loopWhile t a, es =>
    let (tOk, es1) := check_term_boolean t es
    let (aOk, es2) := check_algo a es1
    (tOk && aOk, es2)
  | .loopDoUntil a t, es =>
    let (aOk, es1) := check_algo a es
    let (tOk, es2) := check_term_boolean t es1
    (aOk && tOk, es2)
  | .branchIf t a, es =>
    let (tOk, es1) := check_term_boolean t es
    let (aOk, es2) := check_algo a es1
    (tOk && aOk, es2)
  | .branchIfElse t a0 a1, es =>
    let (tOk, es1) := check_term_boolean t es
    let (a0Ok, es2) := check_algo a0 es1
    let (a1Ok, es3) := check_algo a1 es2
    (tOk && a0Ok && a1Ok, es3)

/-- Method `_check_algo`: checks instructions in order, returning early on
the first failure. -/
def check_algo : List TkInstr → List TkError → Bool × List TkError
  | [], es => (true, es)
  | i :: rest, es =>
    match check_instr i es with
    | (false, es1) => (false, es1)
    | (true, es1) => check_algo rest es1

end

end Tck

namespace Pyi

/-!
Model of the `Inliner` class of `src/inliner.py`.

The inliner receives the AST as untyped nested tuples/lists and rewrites
already-generated intermediate code line by line with regexes, so the model
works over a dynamic value type `Py` with Python's indexing, truth,
iteration and `str()` semantics, inside `Except String` (the error being a
raised exception's kind).  `fuel` bounds the recursion through nested
instruction tuples and stands for Python's own recursion limit: exceeding
it raises `RecursionError`, which the `try` of `inline_code` catches like
any other exception.
-/

/-- A Python value as the inliner sees one. -/
inductive Py where
  | str (s : String)
  | intv (n : Int)
  | tup (xs : List Py)
  | lst (xs : List Py)
  | none_

mutual

/-- Python `==` on these values. -/
def pyEq : Py → Py → Bool
  | .str a, .str b => a == b
  | .intv a, .intv b => a == b
  | .tup a, .tup b => pyEqList a b
  | .lst a, .lst b => pyEqList a b
  | .none_, .none_ => true
  | _, _ => false

/-- Elementwise Python `==` on sequences. -/
def pyEqList : List Py → List Py → Bool
  | [], [] => true
  | a :: as_, b :: bs => pyEq a b && pyEqList as_ bs
  | _, _ => false

end

/-- Python `p[i]` for a nonnegative literal index: tuples, lists and
strings are subscriptable (out of range raises `IndexError`), everything
else raises `TypeError`. -/
def pyIdx (p : Py) (i : Nat) : Except String Py :=
  match p with
  | .tup xs =>
    match xs[i]? with
    | some v => pure v
    | none => throw "IndexError"
  | .lst xs =>
    match xs[i]? with
    | some v => pure v
    | none => throw "IndexError"
  | .str s =>
    match s.data[i]? with
    | some c => pure (.str (String.mk [c]))
    | none => throw "IndexError"
  | _ => throw "TypeError: object is not subscriptable"

/-- Python truthiness. -/
def pyTruthy : Py → Bool
  | .str s => s != ""
  | .intv n => n != 0
  | .tup xs => !xs.isEmpty
  | .lst xs => !xs.isEmpty
  | .none_ => false

/-- Python `for x in p`: the sequence of elements, or `TypeError` (a
string iterates its one-character substrings). -/
def pyIter : Py → Except String (List Py)
  | .lst xs => pure xs
  | .tup xs => pure xs
  | .str s => pure (s.data.map (fun c => Py.str (String.mk [c])))
  | .none_ => throw "TypeError: object is not iterable"
  | _ => throw "TypeError: object is not iterable"

/-- Python `len(p)`. -/
def pyLen : Py → Except String Nat
  | .tup xs => pure xs.length
  | .lst xs => pure xs.length
  | .str s => pure s.length
  | _ => throw "TypeError: object has no len"

/-- Python `str(p)` as an f-string applies it.  Only strings and integers
reach it on the paths the claims exercise; the placeholder renderings of
the other shapes stand for their `repr`. -/
def pyStr : Py → String
  | .str s => s
  | .intv n => intStr n
  | .tup _ => "<tuple>"
  | .lst _ => "<list>"
  | .none_ => "None"

/-- Python dict lookup with `Py` keys. -/
def lookupD {α : Type} (d : List (Py × α)) (k : Py) : Option α :=
  (d.find? (fun e => pyEq e.1 k)).map (fun e => e.2)

/-- Python dict assignment `d[k] = v`: overwrite in place, else append. -/
def insertD {α : Type} (d : List (Py × α)) (k : Py) (v : α) : List (Py × α) :=
  if (d.find? (fun e => pyEq e.1 k)).isSome then
    d.map (fun e => if pyEq e.1 k then (e.1, v) else e)
  else d ++ [(k, v)]

/-- The definition tables `self.functions` and `self.procedures`: a
function maps to (params, body, return atom), a procedure to (params,
body). -/
structure InlDefs where
  functions : List (Py × (List Py × Py × Py))
  procedures : List (Py × (List Py × Py))

/-- Method `_get_function_name`: `name_node[2]` if it is a tuple of length
at least 3, else the string `"unknown"`. -/
def get_function_name (name_node : Py) : Py :=
  match name_node with
  | .tup xs => (xs[2]?).getD (.str "unknown")
  | _ => .str "unknown"

/-- Method `_get_procedure_name` (same body as `_get_function_name`). -/
def get_procedure_name (name_node : Py) : Py :=
  match name_node with
  | .tup xs => (xs[2]?).getD (.str "unknown")
  | _ => .str "unknown"

/-- Method `_get_variable_name`. -/
def get_variable_name (var_node : Py) : Py :=
  match var_node with
  | .tup xs => (xs[2]?).getD (.str "unknown")
  | _ => .str "unknown"

/-- Method `_get_atom_name`. -/
def get_atom_name (atom : Py) : Except String Py := do
  let t ← pyIdx atom 0
  if pyEq t (.str "ATOM_NUM") then do
    let v ← pyIdx atom 2
    pure (.str (pyStr v))
  else if pyEq t (.str "ATOM_VAR") then do
    let v ← pyIdx atom 2
    pure (get_variable_name v)
  else pure (.str "unknown")

/-- Method `_extract_parameters`. -/
def extract_parameters (param_node : Py) : Except String (List Py) := do
  let t ← pyIdx param_node 0
  if !pyEq t (.str "PARAM") then pure [] else do
  let maxthree ← pyIdx param_node 2
  if !pyTruthy maxthree then pure [] else do
  let elems ← pyIter maxthree
  elems.foldlM
    (fun acc var => do
      let tg ← pyIdx var 0
      if pyEq tg (.str "VAR") then do
        let nm ← pyIdx var 2
        pure (acc ++ [nm])
      else pure acc)
    []

/-- Method `_extract_function`. -/
def extract_function (st : InlDefs) (fdef : Py) : Except String InlDefs := do
  let t ← pyIdx fdef 0
  if !pyEq t (.str "FDEF") then pure st else do
  let nameNode ← pyIdx fdef 2
  let fname := get_function_name nameNode
  let paramNode ← pyIdx fdef 3
  let params ← extract_parameters paramNode
  let body ← pyIdx fdef 4
  let ret ← pyIdx fdef 5
  pure { st with functions := insertD st.functions fname (params, body, ret) }

/-- Method `_extract_procedure`. -/
def extract_procedure (st : InlDefs) (pdef : Py) : Except String InlDefs := do
  let t ← pyIdx pdef 0
  if !pyEq t (.str "PDEF") then pure st else do
  let nameNode ← pyIdx pdef 2
  let pname := get_procedure_name nameNode
  let paramNode ← pyIdx pdef 3
  let params ← extract_parameters paramNode
  let body ← pyIdx pdef 4
  pure { st with procedures := insertD st.procedures pname (params, body) }

/-- Method `_extract_definitions`: functions from `ast[4]`, then
procedures from `ast[3]`; a non-list field is treated as a single
definition, as in the source. -/
def extract_definitions (ast : Py) (st : InlDefs) : Except String InlDefs := do
  let t ← pyIdx ast 0
  if !pyEq t (.str "SPL_PROG") then pure st else do
  let funcdefs ← pyIdx ast 4
  let st1 ←
    if pyTruthy funcdefs then
      match funcdefs with
      | .lst xs => xs.foldlM extract_function st
      | other => extract_function st other
    else pure st
  let procdefs ← pyIdx ast 3
  if pyTruthy procdefs then
    match procdefs with
    | .lst xs => xs.foldlM extract_procedure st1
    | other => extract_procedure st1 other
  else pure st1

/-- Python `s.strip()`. -/
def strip (s : String) : String :=
  String.mk (Bas.pyStripL s.data)

/-- Python `s.split('\n')`. -/
def splitLines (s : String) : List String :=
  (Bas.splitCh '\n' s.data).map String.mk

/-- Python `'\n'.join(xs)`. -/
def joinLines (xs : List String) : String :=
  String.mk (Bas.joinNl (xs.map String.data))

/-- Index of the first occurrence of `pat` in a character list. -/
def findSub (pat : List Char) : List Char → Option Nat
  | [] => if pat.isPrefixOf ([] : List Char) then some 0 else none
  | c :: cs =>
    if pat.isPrefixOf (c :: cs) then some 0
    else (findSub pat cs).map (fun i => i + 1)

/-- Python `s.split(sep, 1)` when it actually splits; `none` when `sep`
does not occur (the caller's tuple unpacking then raises `ValueError`). -/
def splitOnce (sep : String) (s : String) : Option (String × String) :=
  match findSub sep.data s.data with
  | some i => some (String.mk (s.data.take i), String.mk (s.data.drop (i + sep.data.length)))
  | none => none

/-- Index of the last occurrence of `c`. -/
def lastIdxOf (c : Char) (cs : List Char) : Option Nat :=
  match cs.reverse.findIdx? (fun x => x == c) with
  | some i => some (cs.length - 1 - i)
  | none => none

/-- Regex `re.match(r'CALL\s+(\w+)\s*\((.*)\)', s)`: anchored at the
start; `\w+` and `\s*` are matched maximally (no backtracking can help
them here), `(.*)` is greedy within the line (`.` does not match a
newline) and backtracks to the last `)`. -/
def matchCallRe (s : String) : Option (String × String) :=
  let cs := s.data
  if ['C', 'A', 'L', 'L'].isPrefixOf cs then
    let after := cs.drop 4
    if after.takeWhile isPySpace = [] then none
    else
      let r1 := after.dropWhile isPySpace
      let w := r1.takeWhile isWordChar
      if w = [] then none
      else
        match (r1.dropWhile isWordChar).dropWhile isPySpace with
        | '(' :: tail =>
          let seg := tail.takeWhile (fun c => c ≠ '\n')
          match lastIdxOf ')' seg with
          | some i => some (String.mk w, String.mk (seg.take i))
          | none => none
        | _ => none
  else none

/-- The `param_map` construction shared by both inlining paths:
`for i, param in enumerate(params): if i < len(args): param_map[param] = args[i]`. -/
def buildParamMap (params : List Py) (args : List String) : List (Py × String) :=
  (params.zip args).foldl (fun d pa => insertD d pa.1 pa.2) []

/-- Python `sep.join(xs)`: every element must be a string, else
`TypeError`. -/
def pyJoinStrs (sep : String) (xs : List Py) : Except String String := do
  let ss ← xs.mapM
    (fun p =>
      match p with
      | .str s => pure s
      | _ => throw "TypeError: sequence item is not str")
  pure (String.intercalate sep ss)

/-- The substitution idiom `if n in param_map: n = param_map[n]` followed
by an f-string rendering. -/
def substFmt (pm : List (Py × String)) (n : Py) : String :=
  match lookupD pm n with
  | some s => s
  | none => pyStr n

/-- The same substitution idiom where the value stays a Python value. -/
def substPy (pm : List (Py × String)) (n : Py) : Py :=
  match lookupD pm n with
  | some s => .str s
  | none => n

/-- Method `_generate_print_with_params`. -/
def generate_print (pm : List (Py × String)) (output : Py) : Except String String := do
  let t ← pyIdx output 0
  if pyEq t (.str "OUTPUT_STRING") then do
    let sv ← pyIdx output 1
    pure ("PRINT \"" ++ pyStr sv ++ "\"")
  else if pyEq t (.str "OUTPUT_ATOM") then do
    let atom ← pyIdx output 1
    let an ← get_atom_name atom
    pure ("PRINT " ++ substFmt pm an)
  else pure ""

/-- Method `_generate_procedure_call_with_params`. -/
def generate_procedure_call (pm : List (Py × String)) (name input_args : Py) :
    Except String String := do
  let ns := get_function_name name
  let items ← pyIter input_args
  let args ← items.foldlM
    (fun acc arg => do
      let t ← pyIdx arg 0
      if pyEq t (.str "ATOM_NUM") then do
        let v ← pyIdx arg 2
        pure (acc ++ [Py.str (pyStr v)])
      else if pyEq t (.str "ATOM_VAR") then do
        let var ← pyIdx arg 2
        pure (acc ++ [substPy pm (get_variable_name var)])
      else pure acc)
    []
  let argsStr ← pyJoinStrs ", " args
  pure ("CALL " ++ pyStr ns ++ "(" ++ argsStr ++ ")")

/-- Method `_generate_function_call_with_params`.  The source's loop
reassigns the Python variable `var_name` that also holds the assignment
target, so the rendered target is the last mapped variable argument when
one exists; the fold threads that reassignment faithfully. -/
def generate_function_call (pm : List (Py × String)) (var name input_args : Py) :
    Except String String := do
  let vn0 := substPy pm (get_variable_name var)
  let ns := get_function_name name
  let items ← pyIter input_args
  let res ← items.foldlM
    (fun (acc : List Py × Py) arg => do
      let t ← pyIdx arg 0
      if pyEq t (.str "ATOM_NUM") then do
        let v ← pyIdx arg 2
        pure (acc.1 ++ [Py.str (pyStr v)], acc.2)
      else if pyEq t (.str "ATOM_VAR") then do
        let var2 ← pyIdx arg 2
        let vn := substPy pm (get_variable_name var2)
        pure (acc.1 ++ [vn], vn)
      else pure acc)
    (([] : List Py), vn0)
  let argsStr ← pyJoinStrs ", " res.1
  pure (pyStr res.2 ++ " = CALL " ++ pyStr ns ++ "(" ++ argsStr ++ ")")

mutual

/-- Method `_generate_term_with_params`. -/
def generate_term : Nat → List (Py × String) → Py → Except String String
  | 0, _, _ => throw "RecursionError"
  | fuel + 1, pm, term => do
    let t ← pyIdx term 0
    if pyEq t (.str "TERM_ATOM") then do
      let atom ← pyIdx term 1
      let an ← get_atom_name atom
      pure (substFmt pm an)
    else if pyEq t (.str "TERM_UNOP") then do
      let unop ← pyIdx term 1
      let sub ← pyIdx term 2
      let sc ← generate_term fuel pm sub
      if pyEq unop (.str "NEG") then pure ("-" ++ sc) else pure sc
    else if pyEq t (.str "TERM_BINOP") then do
      let t1 ← pyIdx term 1
      let binop ← pyIdx term 2
      let t2 ← pyIdx term 3
      let c1 ← generate_term fuel pm t1
      let c2 ← generate_term fuel pm t2
      let opstr :=
        if pyEq binop (.str "EQ") then "="
        else if pyEq binop (.str "GT") then ">"
        else if pyEq binop (.str "PLUS") then "+"
        else if pyEq binop (.str "MINUS") then "-"
        else if pyEq binop (.str "MULT") then "*"
        else if pyEq binop (.str "DIV") then "/"
        else pyStr binop
      pure ("(" ++ c1 ++ " " ++ opstr ++ " " ++ c2 ++ ")")
    else pure "0"

/-- Method `_generate_assignment_with_params`. -/
def generate_assignment (fuel : Nat) (pm : List (Py × String)) (var term : Py) :
    Except String String := do
  let vn := substFmt pm (get_variable_name var)
  let tc ← generate_term fuel pm term
  pure (vn ++ " = " ++ tc)

/-- Method `_generate_while_loop_with_params`. -/
def generate_while (fuel : Nat) (pm : List (Py × String)) (condition loop_algo : Py) :
    Except String String := do
  let cond ← generate_term fuel pm condition
  let lc ← generate_algo_code fuel pm loop_algo
  pure (joinLines ["REM L_LOOP", "IF " ++ cond ++ " = 0 THEN L_EXIT", lc,
                   "GOTO L_LOOP", "REM L_EXIT"])

/-- Method `_generate_do_until_loop_with_params`. -/
def generate_do_until (fuel : Nat) (pm : List (Py × String)) (loop_algo condition : Py) :
    Except String String := do
  let cond ← generate_term fuel pm condition
  let lc ← generate_algo_code fuel pm loop_algo
  pure (joinLines ["REM L_LOOP", lc, "IF " ++ cond ++ " = 1 THEN L_EXIT",
                   "GOTO L_LOOP", "REM L_EXIT"])

/-- Method `_generate_if_then_with_params`. -/
def generate_if_then (fuel : Nat) (pm : List (Py × String)) (condition then_algo : Py) :
    Except String String := do
  let cond ← generate_term fuel pm condition
  let tc ← generate_algo_code fuel pm then_algo
  pure (joinLines ["IF " ++ cond ++ " = 1 THEN L_THEN", "GOTO L_EXIT",
                   "REM L_THEN", tc, "REM L_EXIT"])

/-- Method `_generate_if_else_with_params`. -/
def generate_if_else (fuel : Nat) (pm : List (Py × String)) (condition then_algo else_algo : Py) :
    Except String String := do
  let cond ← generate_term fuel pm condition
  let tc ← generate_algo_code fuel pm then_algo
  let ec ← generate_algo_code fuel pm else_algo
  pure (joinLines ["IF " ++ cond ++ " = 1 THEN L_THEN", ec, "GOTO L_EXIT",
                   "REM L_THEN", tc, "REM L_EXIT"])

/-- Method `_generate_instruction`. -/
def generate_instruction : Nat → List (Py × String) → Py → Except String String
  | 0, _, _ => throw "RecursionError"
  | fuel + 1, pm, instr => do
    if !pyTruthy instr then pure "" else do
    let t ← pyIdx instr 0
    if pyEq t (.str "INSTR_HALT") then pure "STOP"
    else if pyEq t (.str "INSTR_PRINT") then do
      let o ← pyIdx instr 1
      generate_print pm o
    else if pyEq t (.str "INSTR_CALL") then do
      let nm ← pyIdx instr 1
      let ia ← pyIdx instr 2
      generate_procedure_call pm nm ia
    else if pyEq t (.str "ASSIGN_CALL") then do
      let v ← pyIdx instr 1
      let nm ← pyIdx instr 2
      let ia ← pyIdx instr 3
      generate_function_call pm v nm ia
    else if pyEq t (.str "ASSIGN_TERM") then do
      let v ← pyIdx instr 1
      let tm ← pyIdx instr 2
      generate_assignment fuel pm v tm
    else if pyEq t (.str "LOOP_WHILE") then do
      let c ← pyIdx instr 1
      let a ← pyIdx instr 2
      generate_while fuel pm c a
    else if pyEq t (.str "LOOP_DO_UNTIL") then do
      let a ← pyIdx instr 1
      let c ← pyIdx instr 2
      generate_do_until fuel pm a c
    else if pyEq t (.str "BRANCH_IF") then do
      let c ← pyIdx instr 1
      let a ← pyIdx instr 2
      generate_if_then fuel pm c a
    else if pyEq t (.str "BRANCH_IF_ELSE") then do
      let c ← pyIdx instr 1
      let a0 ← pyIdx instr 2
      let a1 ← pyIdx instr 3
      generate_if_else fuel pm c a0 a1
    else pure ""

/-- Method `_generate_algo_code`. -/
def generate_algo_code (fuel : Nat) (pm : List (Py × String)) (algo : Py) :
    Except String String := do
  if !pyTruthy algo then pure "" else do
  let items ← pyIter algo
  let lines ← items.foldlM
    (fun acc instr => do
      let code ← generate_instruction fuel pm instr
      if code ≠ "" then pure (acc ++ [code]) else pure acc)
    []
  pure (joinLines lines)

/-- Method `_inline_body`. -/
def inline_body (fuel : Nat) (pm : List (Py × String)) (body : Py) :
    Except String String := do
  let t ← pyIdx body 0
  if !pyEq t (.str "BODY") then pure "" else do
  let ln ← pyLen body
  if ln == 3 then do
    let mx ← pyIdx body 1
    let algo ← pyIdx body 2
    inline_body_rest fuel pm mx algo
  else if ln == 4 then do
    let mx ← pyIdx body 2
    let algo ← pyIdx body 3
    inline_body_rest fuel pm mx algo
  else pure ""

/-- The shared tail of `_inline_body` after the BODY shape dispatch: the
local-variable comment line, then the algorithm's code. -/
def inline_body_rest (fuel : Nat) (pm : List (Py × String)) (mx algo : Py) :
    Except String String := do
  let localVars ←
    if pyTruthy mx then do
      let items ← pyIter mx
      items.foldlM
        (fun acc var => do
          let tg ← pyIdx var 0
          if pyEq tg (.str "VAR") then do
            let nm ← pyIdx var 2
            pure (acc ++ [nm])
          else pure acc)
        []
    else pure ([] : List Py)
  let algoCode ← generate_algo_code fuel pm algo
  let head ←
    if !localVars.isEmpty then do
      let j ← pyJoinStrs ", " localVars
      pure ["// Local variables: " ++ j]
    else pure ([] : List String)
  let res := if algoCode ≠ "" then head ++ splitLines algoCode else head
  pure (joinLines res)

end

/-- Method `_inline_function_call`. -/
def inline_function_call (fuel : Nat) (defs : InlDefs) (var_name call_part : String) :
    Except String String := do
  match matchCallRe call_part with
  | none => pure ""
  | some (fname, argsStr0) =>
    let argsStr := strip argsStr0
    match lookupD defs.functions (.str fname) with
    | none => pure ""
    | some (params, body, ret) => do
      let args :=
        if argsStr != "" then
          (Bas.splitCh ',' argsStr.data).map (fun a => String.mk (Bas.pyStripL a))
        else []
      let pm := buildParamMap params args
      let bodyCode ← inline_body fuel pm body
      let lines1 := if bodyCode != "" then splitLines bodyCode else []
      let retVar ← get_atom_name ret
      let lines2 :=
        if pyTruthy retVar then lines1 ++ [var_name ++ " = " ++ pyStr retVar]
        else lines1
      pure (joinLines lines2)

/-- Method `_inline_procedure_call`. -/
def inline_procedure_call (fuel : Nat) (defs : InlDefs) (call_part : String) :
    Except String String := do
  match matchCallRe call_part with
  | none => pure ""
  | some (pname, argsStr0) =>
    let argsStr := strip argsStr0
    match lookupD defs.procedures (.str pname) with
    | none => pure ""
    | some (params, body) => do
      let args :=
        if argsStr != "" then
          (Bas.splitCh ',' argsStr.data).map (fun a => String.mk (Bas.pyStripL a))
        else []
      let pm := buildParamMap params args
      inline_body fuel pm body

/-- Method `_inline_calls`: rewrite the intermediate code line by line. -/
def inline_calls (fuel : Nat) (defs : InlDefs) (code : String) :
    Except String String := do
  let lines := splitLines code
  let newLines ← lines.foldlM
    (fun acc line => do
      if containsSeq "CALL".data line.data then
        if line.data.contains '=' then
          match splitOnce " = " line with
          | none => throw "ValueError: not enough values to unpack"
          | some (vn, cp0) => do
            let cp := strip cp0
            let ic ← inline_function_call fuel defs vn cp
            if ic != "" then pure (acc ++ splitLines ic) else pure (acc ++ [line])
        else do
          let cp := strip line
          let ic ← inline_procedure_call fuel defs cp
          if ic != "" then pure (acc ++ splitLines ic) else pure (acc ++ [line])
      else pure (acc ++ [line]))
    []
  pure (joinLines newLines)

/-- The body of `inline_code`'s `try` block: extract the definitions, then
expand the call sites of the given intermediate code. -/
def inlinePipeline (fuel : Nat) (ast : Py) (inter : String) : Except String String := do
  let defs ← extract_definitions ast ⟨[], []⟩
  inline_calls fuel defs inter

/-- Method `inline_code`: on any exception the original intermediate code
is returned unchanged. -/
def inline_code (fuel : Nat) (ast : Py) (inter : String) : String :=
  match inlinePipeline fuel ast inter with
  | .ok s => s
  | .error _ => inter

end Pyi

/-- The condition `( 1 eq 2 ) and ( 3 eq 4 )`: a conjunction whose left
conjunct is false, used to exhibit the short-circuit behaviour of
`cond_goto_true`. -/
def andProbe : Cg.Term :=
  .binop (.binop (.atom (.num 1)) .eq (.atom (.num 2))) .and
    (.binop (.atom (.num 3)) .eq (.atom (.num 4)))

/-- A malformed AST whose function-definition list holds a one-element
`FDEF` tuple: extracting that definition's name indexes past the end of
the tuple, raising `IndexError` inside `extract_definitions` and
exercising the inliner's exception fallback. -/
def astBad : Pyi.Py :=
  .tup [.str "SPL_PROG", .none_, .none_, .lst [], .lst [.tup [.str "FDEF"]]]

/-- C1.  The jump-on-true lowering of `X and Y` emits X's comparison, then
the intermediate label, then Y's comparison, with nothing between X's
comparison and the label: when X is false its `IF` does not jump and
control falls through exactly onto `REM T0001` and then executes Y's
comparison `IF 3 = 4 THEN L1` before reaching the false branch (the end of
the block).  This theorem evaluates `cond_goto_true` at the failing input
and exhibits that ordering, refuting the claim that no emitted instruction
sequence evaluates Y between X's failing jump and the false branch. -/
theorem cond_goto_true_and_evaluates_Y_after_X_false :
    Cg.cond_goto_true andProbe "L1" 0 =
      some (["IF 1 = 2 THEN T0001", "REM T0001", "IF 3 = 4 THEN L1"], 1) ∧
    Cg.cond_goto_true (.binop (.atom (.num 1)) .eq (.atom (.num 2))) "T0001" 1 =
      some (["IF 1 = 2 THEN T0001"], 1) ∧
    List.drop 1 ["IF 1 = 2 THEN T0001", "REM T0001", "IF 3 = 4 THEN L1"] =
      ["REM T0001", "IF 3 = 4 THEN L1"] := by
  exact ⟨rfl, rfl, rfl⟩

/-- C7.  Layout of the loop lowerings of `CodeGen.gen_instr`: a while loop
emits (in order) the start marker, the condition lowered to jump to the
body label on true, the `GOTO` to the exit label on fall-through, the body
marker, the lowered body, the back jump and the exit marker; a do-until
loop emits the start marker, the lowered body, the condition lowered to
jump to the exit label on true, the back jump and the exit marker. -/
theorem gen_instr_loop_layout (c : Cg.Term) (b : List Cg.Instr) (n : Nat) :
    (∀ out n', Cg.gen_instr (.loopWhile c b) n = some (out, n') →
      ∃ dc n4 db,
        Cg.cond_goto_true c ("WB" ++ Cg.pad4 (n + 2)) (n + 3) = some (dc, n4) ∧
        Cg.gen_algo b n4 = some (db, n') ∧
        out = ("REM " ++ ("W" ++ Cg.pad4 (n + 1))) :: dc ++
          ("GOTO " ++ ("WX" ++ Cg.pad4 (n + 3))) ::
          ("REM " ++ ("WB" ++ Cg.pad4 (n + 2))) :: db ++
          [("GOTO " ++ ("W" ++ Cg.pad4 (n + 1))), ("REM " ++ ("WX" ++ Cg.pad4 (n + 3)))]) ∧
    (∀ out n', Cg.gen_instr (.loopDoUntil b c) n = some (out, n') →
      ∃ db n3 dc,
        Cg.gen_algo b (n + 2) = some (db, n3) ∧
        Cg.cond_goto_true c ("DX" ++ Cg.pad4 (n + 2)) n3 = some (dc, n') ∧
        out = ("REM " ++ ("D" ++ Cg.pad4 (n + 1))) :: db ++ dc ++
          [("GOTO " ++ ("D" ++ Cg.pad4 (n + 1))), ("REM " ++ ("DX" ++ Cg.pad4 (n + 2)))]) := by
  constructor
  · intro out n' h
    simp only [Cg.gen_instr, Cg.new_label, Cg.cond_goto_true, bind, Option.bind_eq_some] at h
    obtain ⟨⟨dc, n4⟩, hc, h⟩ := h
    obtain ⟨⟨db, n5⟩, hb, h⟩ := h
    simp only [Option.pure_def, Option.some.injEq, Prod.mk.injEq] at h
    exact ⟨dc, n4, db, hc, h.2 ▸ hb, h.1.symm⟩
  · intro out n' h
    simp only [Cg.gen_instr, Cg.new_label, Cg.cond_goto_true, bind, Option.bind_eq_some] at h
    obtain ⟨⟨db, n3⟩, hb, h⟩ := h
    obtain ⟨⟨dc, n4⟩, hc, h⟩ := h
    simp only [Option.pure_def, Option.some.injEq, Prod.mk.injEq] at h
    exact ⟨db, n3, dc, hb, h.2 ▸ hc, h.1.symm⟩

/-- Witness instance for the loop-layout theorem: the loops
`while ( 1 eq 1 ) { halt }` and `do { halt } until ( 1 eq 1 )` generated
from a fresh label counter. -/
theorem gen_instr_loop_layout_witness :
    (∃ dc n4 db,
      Cg.cond_goto_true (.binop (.atom (.num 1)) .eq (.atom (.num 1)))
          ("WB" ++ Cg.pad4 2) 3 = some (dc, n4) ∧
      Cg.gen_algo [Cg.Instr.halt] n4 = some (db, 3) ∧
      (["REM W0001", "IF 1 = 1 THEN WB0002", "GOTO WX0003", "REM WB0002", "STOP",
        "GOTO W0001", "REM WX0003"] : List String) =
        ("REM " ++ ("W" ++ Cg.pad4 1)) :: dc ++
          ("GOTO " ++ ("WX" ++ Cg.pad4 3)) :: ("REM " ++ ("WB" ++ Cg.pad4 2)) :: db ++
          [("GOTO " ++ ("W" ++ Cg.pad4 1)), ("REM " ++ ("WX" ++ Cg.pad4 3))]) ∧
    (∃ db n3 dc,
      Cg.gen_algo [Cg.Instr.halt] 2 = some (db, n3) ∧
      Cg.cond_goto_true (.binop (.atom (.num 1)) .eq (.atom (.num 1)))
          ("DX" ++ Cg.pad4 2) n3 = some (dc, 2) ∧
      (["REM D0001", "STOP", "IF 1 = 1 THEN DX0002", "GOTO D0001", "REM DX0002"] :
          List String) =
        ("REM " ++ ("D" ++ Cg.pad4 1)) :: db ++ dc ++
          [("GOTO " ++ ("D" ++ Cg.pad4 1)), ("REM " ++ ("DX" ++ Cg.pad4 2))]) := by
  exact ⟨(gen_instr_loop_layout (.binop (.atom (.num 1)) .eq (.atom (.num 1)))
            [Cg.Instr.halt] 0).1 _ _ rfl,
         (gen_instr_loop_layout (.binop (.atom (.num 1)) .eq (.atom (.num 1)))
            [Cg.Instr.halt] 0).2 _ _ rfl⟩

namespace Bas

theorem subJumpAux_nil (kw : List Char) (tbl : List (List Char × Nat)) (f : Nat) (b : Bool) :
    subJumpAux kw tbl f b [] = [] := by
  cases f <;> rfl

theorem takeWhile_eq_self_of_all {p : Char → Bool} :
    ∀ l : List Char, l.all p = true → l.takeWhile p = l := by
  intro l h
  induction l with
  | nil => rfl
  | cons c cs ih =>
    simp only [List.all_cons, Bool.and_eq_true] at h
    simp [List.takeWhile_cons_of_pos h.1, ih h.2]

theorem dropWhile_eq_nil_of_all {p : Char → Bool} :
    ∀ l : List Char, l.all p = true → l.dropWhile p = [] := by
  intro l h
  induction l with
  | nil => rfl
  | cons c cs ih =>
    simp only [List.all_cons, Bool.and_eq_true] at h
    simp [List.dropWhile_cons_of_pos h.1, ih h.2]

theorem isWordChar_of_isIdentStart {c : Char} (h : isIdentStart c = true) :
    isWordChar c = true := by
  simp only [isIdentStart, Bool.or_eq_true, decide_eq_true_eq] at h
  rcases h with h | h
  · simp [isWordChar, Char.isAlphanum, h]
  · simp [isWordChar, h]

theorem not_isPySpace_of_isWordChar {c : Char} (h : isWordChar c = true) :
    isPySpace c = false := by
  cases hs : isPySpace c
  · rfl
  · exfalso
    simp only [isPySpace, Bool.or_eq_true, decide_eq_true_eq] at hs
    rcases hs with ((((rfl | rfl) | rfl) | rfl) | rfl) | rfl <;> exact absurd h (by decide)

theorem isPrefixOf_append_self : ∀ (kw t : List Char), kw.isPrefixOf (kw ++ t) = true := by
  intro kw t
  induction kw with
  | nil => simp
  | cons a as ih => simp [List.isPrefixOf, ih]

theorem exists_cons_of_isPrefixOf_cons {k0 : Char} {kr v : List Char}
    (h : (k0 :: kr).isPrefixOf v = true) : ∃ t, v = k0 :: t ∧ kr.isPrefixOf t = true := by
  cases v with
  | nil => simp [List.isPrefixOf] at h
  | cons c cs =>
    simp only [List.isPrefixOf, Bool.and_eq_true, beq_iff_eq] at h
    exact ⟨cs, by rw [h.1], h.2⟩

theorem tryJump_none_of_no_kw {kw cs : List Char}
    (h : kw.isPrefixOf cs = false) : tryJump kw cs = none := by
  simp [tryJump, h]

theorem length_le_of_isPrefixOf {u v : List Char} (h : u.isPrefixOf v = true) :
    u.length ≤ v.length := by
  induction u generalizing v with
  | nil => simp
  | cons a as ih =>
    obtain ⟨t, rfl, ht⟩ := exists_cons_of_isPrefixOf_cons h
    simpa using ih ht

theorem takeIdent_eq_some {d lab rest : List Char} (h : takeIdent d = some (lab, rest)) :
    ∃ c cs, d = c :: cs ∧ isIdentStart c = true ∧
      lab = c :: cs.takeWhile isWordChar ∧ rest = cs.dropWhile isWordChar := by
  cases d with
  | nil => simp [takeIdent] at h
  | cons c cs =>
    simp only [takeIdent] at h
    split at h
    · next hid =>
      simp only [Option.some.injEq, Prod.mk.injEq] at h
      exact ⟨c, cs, rfl, hid, h.1.symm, h.2.symm⟩
    · simp at h

theorem tryJump_rest_lt {kw cs lab rest : List Char} (hkw : kw ≠ [])
    (h : tryJump kw cs = some (lab, rest)) : rest.length < cs.length := by
  unfold tryJump at h
  split at h
  case isFalse => exact absurd h (by simp)
  case isTrue hp =>
    split at h
    case isTrue => exact absurd h (by simp)
    case isFalse hsp =>
      have hkl : kw.length ≤ cs.length := length_le_of_isPrefixOf hp
      have hdl : (cs.drop kw.length).length = cs.length - kw.length := by simp
      have hsplit :
          ((cs.drop kw.length).takeWhile isPySpace).length +
            ((cs.drop kw.length).dropWhile isPySpace).length =
            (cs.drop kw.length).length := by
        rw [← List.length_append, List.takeWhile_append_dropWhile]
      have hsp1 : 1 ≤ ((cs.drop kw.length).takeWhile isPySpace).length := by
        cases hcs : (cs.drop kw.length).takeWhile isPySpace with
        | nil => exact absurd hcs hsp
        | cons a as => simp
      obtain ⟨c2, cs2, hdc, hid, hlab, hrest⟩ := takeIdent_eq_some h
      have h1 : rest.length ≤ cs2.length := by
        rw [hrest]; exact (List.dropWhile_sublist (p := isWordChar) (l := cs2)).length_le
      have hkw1 : 1 ≤ kw.length := by
        cases kw with
        | nil => exact absurd rfl hkw
        | cons a as => simp
      have hlen := congrArg List.length hdc
      simp only [List.length_cons] at hlen
      omega

theorem subJumpAux_append_no_kw (kw : List Char) (tbl : List (List Char × Nat)) :
    ∀ (xs ys : List Char) (b : Bool) (f : Nat),
      (xs ++ ys).length ≤ f →
      (∀ i, i < xs.length → kw.isPrefixOf ((xs ++ ys).drop i) = false) →
      subJumpAux kw tbl f b (xs ++ ys) =
        xs ++ subJumpAux kw tbl (f - xs.length) (prevWAfter b xs) ys := by
  intro xs
  induction xs with
  | nil => intro ys b f hf hc; simp [prevWAfter]
  | cons x rest ih =>
    intro ys b f hf hc
    cases f with
    | zero => simp at hf
    | succ f2 =>
      have h0 : kw.isPrefixOf (x :: (rest ++ ys)) = false := by
        have := hc 0 (by simp)
        simpa using this
      have hrec :
          subJumpAux kw tbl f2 (isWordChar x) (rest ++ ys) =
            rest ++ subJumpAux kw tbl (f2 - rest.length) (prevWAfter (isWordChar x) rest) ys := by
        apply ih
        · simp at hf ⊢; omega
        · intro i hi
          have := hc (i + 1) (by simp; omega)
          simpa using this
      have hfuel : f2 + 1 - (rest.length + 1) = f2 - rest.length := by omega
      cases b with
      | true =>
        show subJumpAux kw tbl (f2 + 1) true (x :: (rest ++ ys)) = _
        rw [subJumpAux]
        simp only [if_pos rfl]
        rw [hrec]
        simp [prevWAfter, hfuel]
      | false =>
        show subJumpAux kw tbl (f2 + 1) false (x :: (rest ++ ys)) = _
        rw [subJumpAux]
        simp only [Bool.false_eq_true, if_false, tryJump_none_of_no_kw h0]
        rw [hrec]
        simp [prevWAfter, hfuel]

end Bas

namespace Bas

theorem subJumpAux_all_word (kw : List Char) (tbl : List (List Char × Nat)) :
    ∀ (cs : List Char) (f : Nat), cs.length ≤ f → cs.all isWordChar = true →
      subJumpAux kw tbl f true cs = cs := by
  intro cs
  induction cs with
  | nil => intro f _ _; exact subJumpAux_nil ..
  | cons c rest ih =>
    intro f hf hall
    simp only [List.all_cons, Bool.and_eq_true] at hall
    cases f with
    | zero => simp at hf
    | succ f2 =>
      show subJumpAux kw tbl (f2 + 1) true (c :: rest) = c :: rest
      rw [subJumpAux]
      rw [hall.1, ih f2 (by simp at hf; omega) hall.2]
      simp

theorem subJumpAux_wfIdent (kw : List Char) (tbl : List (List Char × Nat))
    (cs : List Char) (f : Nat) (hf : cs.length ≤ f) (hid : wfIdent cs = true) :
    subJumpAux kw tbl f false cs = cs := by
  cases cs with
  | nil => exact subJumpAux_nil ..
  | cons c rest =>
    simp only [wfIdent, Bool.and_eq_true] at hid
    have hcw : isWordChar c = true := isWordChar_of_isIdentStart hid.1
    have hallw : (c :: rest).all isWordChar = true := by
      simp [List.all_cons, hcw, hid.2]
    have htj : tryJump kw (c :: rest) = none := by
      unfold tryJump
      cases hp : kw.isPrefixOf (c :: rest) with
      | false => simp
      | true =>
        have hdropall : ((c :: rest).drop kw.length).all isWordChar = true := by
          have hsub : List.Sublist ((c :: rest).drop kw.length) (c :: rest) :=
            List.drop_sublist ..
          rw [List.all_eq_true] at hallw ⊢
          intro x hx
          exact hallw x (hsub.subset hx)
        have : ((c :: rest).drop kw.length).takeWhile isPySpace = [] := by
          cases hdd : (c :: rest).drop kw.length with
          | nil => simp
          | cons a as =>
            rw [hdd] at hdropall
            simp only [List.all_cons, Bool.and_eq_true] at hdropall
            exact List.takeWhile_cons_of_neg (by simp [not_isPySpace_of_isWordChar hdropall.1])
        simp [this]
    cases f with
    | zero => simp at hf
    | succ f2 =>
      show subJumpAux kw tbl (f2 + 1) false (c :: rest) = c :: rest
      rw [subJumpAux]
      simp only [Bool.false_eq_true, if_false, htj]
      rw [hcw]
      rw [subJumpAux_all_word kw tbl rest f2 (by simp at hf; omega) hid.2]

theorem tryJump_head (kw lab : List Char) (hlab : wfIdent lab = true) :
    tryJump kw (kw ++ ' ' :: lab) = some (lab, []) := by
  obtain ⟨c, cs, rfl⟩ : ∃ c cs, lab = c :: cs := by
    cases lab with
    | nil => simp [wfIdent] at hlab
    | cons c cs => exact ⟨c, cs, rfl⟩
  simp only [wfIdent, Bool.and_eq_true] at hlab
  have hwds : isPySpace c = false :=
    not_isPySpace_of_isWordChar (isWordChar_of_isIdentStart hlab.1)
  have h1 : (kw ++ ' ' :: c :: cs).drop kw.length = ' ' :: c :: cs := List.drop_left ..
  have h3 : List.takeWhile isPySpace (c :: cs) = [] :=
    List.takeWhile_cons_of_neg (by simp [hwds])
  have h5 : List.dropWhile isPySpace (c :: cs) = c :: cs :=
    List.dropWhile_cons_of_neg (by simp [hwds])
  simp only [tryJump, isPrefixOf_append_self, if_true, h1,
    List.takeWhile_cons_of_pos (show isPySpace ' ' = true by decide),
    List.dropWhile_cons_of_pos (show isPySpace ' ' = true by decide), h3, h5,
    takeIdent, hlab.1, if_pos rfl, takeWhile_eq_self_of_all cs hlab.2,
    dropWhile_eq_nil_of_all cs hlab.2]
  simp

theorem subJumpAux_match (kw : List Char) (tbl : List (List Char × Nat)) (lab : List Char)
    (f : Nat) (hkw : kw ≠ []) (hlab : wfIdent lab = true)
    (hf : (kw ++ ' ' :: lab).length ≤ f) (htbl : lookupTbl tbl lab = none) :
    subJumpAux kw tbl f false (kw ++ ' ' :: lab) = kw ++ ' ' :: lab := by
  obtain ⟨k0, kr, rfl⟩ : ∃ k0 kr, kw = k0 :: kr := by
    cases kw with
    | nil => exact absurd rfl hkw
    | cons k0 kr => exact ⟨k0, kr, rfl⟩
  cases f with
  | zero => simp at hf
  | succ f2 =>
    have htj : tryJump (k0 :: kr) (k0 :: (kr ++ ' ' :: lab)) = some (lab, []) :=
      tryJump_head (k0 :: kr) lab hlab
    show subJumpAux (k0 :: kr) tbl (f2 + 1) false (k0 :: (kr ++ ' ' :: lab)) = _
    rw [subJumpAux]
    simp only [Bool.false_eq_true, if_false, htj, htbl, subJumpAux_nil]
    simp

theorem head_drop_append {xs ys : List Char} {i : Nat} (hi : i < xs.length) :
    ((xs ++ ys).drop i).head? = xs[i]? := by
  rw [List.head?_eq_getElem?, List.getElem?_drop, Nat.add_zero, List.getElem?_append_left hi]

theorem no_prefix_of_head_notin (k0 : Char) (kr : List Char) (xs ys : List Char)
    (h : ∀ ch ∈ xs, ¬(ch = k0)) :
    ∀ i, i < xs.length → (k0 :: kr).isPrefixOf ((xs ++ ys).drop i) = false := by
  intro i hi
  cases hp : (k0 :: kr).isPrefixOf ((xs ++ ys).drop i) with
  | false => rfl
  | true =>
    exfalso
    obtain ⟨t, ht, _⟩ := exists_cons_of_isPrefixOf_cons hp
    have hhead : ((xs ++ ys).drop i).head? = some k0 := by rw [ht]; rfl
    rw [head_drop_append hi] at hhead
    exact h k0 (List.getElem?_mem hhead) rfl

theorem prefix_getElem {p v : List Char} (h : p.isPrefixOf v = true) {j : Nat}
    (hj : j < p.length) : v[j]? = p[j]? := by
  induction p generalizing v j with
  | nil => simp at hj
  | cons a as ih =>
    obtain ⟨t, rfl, ht⟩ := exists_cons_of_isPrefixOf_cons h
    cases j with
    | zero => simp
    | succ j2 =>
      simp only [List.getElem?_cons_succ]
      exact ih ht (by simp at hj; omega)

theorem prefix_cross_char {pat xs ys : List Char} {i : Nat}
    (hi : i < xs.length) (hcross : xs.length < i + pat.length)
    (hp : pat.isPrefixOf ((xs ++ ys).drop i) = true) :
    pat[xs.length - i]? = ys[0]? := by
  have hj : xs.length - i < pat.length := by omega
  have h1 : ((xs ++ ys).drop i)[xs.length - i]? = pat[xs.length - i]? :=
    prefix_getElem hp hj
  rw [List.getElem?_drop] at h1
  have hidx : i + (xs.length - i) = xs.length := by omega
  rw [hidx] at h1
  rw [← h1]
  rw [List.getElem?_append_right (by omega)]
  simp

end Bas

namespace Bas

theorem splitCh_of_not_mem {sep : Char} : ∀ {l : List Char}, sep ∉ l → splitCh sep l = [l] := by
  intro l h
  induction l with
  | nil => rfl
  | cons c cs ih =>
    have hc : ¬(c = sep) := fun he => h (he ▸ List.mem_cons_self ..)
    have hcs : sep ∉ cs := fun hm => h (List.mem_cons_of_mem _ hm)
    rw [splitCh, if_neg hc, ih hcs]

theorem splitCh_append_sep {sep : Char} :
    ∀ {l t : List Char}, sep ∉ l → splitCh sep (l ++ sep :: t) = l :: splitCh sep t := by
  intro l t h
  induction l with
  | nil => simp [splitCh]
  | cons c cs ih =>
    have hc : ¬(c = sep) := fun he => h (he ▸ List.mem_cons_self ..)
    have hcs : sep ∉ cs := fun hm => h (List.mem_cons_of_mem _ hm)
    show splitCh sep (c :: (cs ++ sep :: t)) = (c :: cs) :: splitCh sep t
    rw [splitCh, if_neg hc, ih hcs]

theorem splitNl_joinNl : ∀ (ls : List (List Char)), ls ≠ [] →
    (∀ l ∈ ls, '\n' ∉ l) → splitNl (joinNl ls) = ls := by
  intro ls
  induction ls with
  | nil => intro h; exact absurd rfl h
  | cons l rest ih =>
    intro _ hwf
    cases rest with
    | nil =>
      show splitNl (joinNl [l]) = [l]
      exact splitCh_of_not_mem (hwf l (List.mem_cons_self ..))
    | cons l2 rest2 =>
      have hj : joinNl (l :: l2 :: rest2) = l ++ '\n' :: joinNl (l2 :: rest2) := rfl
      show splitNl (joinNl (l :: l2 :: rest2)) = l :: l2 :: rest2
      rw [hj]
      show splitCh '\n' (l ++ '\n' :: joinNl (l2 :: rest2)) = _
      rw [splitCh_append_sep (hwf l (List.mem_cons_self ..))]
      rw [show splitCh '\n' (joinNl (l2 :: rest2)) = splitNl (joinNl (l2 :: rest2)) from rfl]
      rw [ih (List.cons_ne_nil _ _) (fun x hx => hwf x (List.mem_cons_of_mem _ hx))]

theorem rawLines_joinNl (ls : List (List Char))
    (hwf : ∀ l ∈ ls, '\n' ∉ l ∧ l.all isPySpace = false) :
    rawLines (joinNl ls) = ls.map pyRstrip := by
  cases ls with
  | nil => rfl
  | cons l rest =>
    unfold rawLines
    rw [show joinNl (l :: rest) = joinNl (l :: rest) from rfl]
    rw [splitNl_joinNl (l :: rest) (by simp) (fun x hx => (hwf x hx).1)]
    congr 1
    rw [List.filter_eq_self]
    intro a ha
    simp [(hwf a ha).2]

theorem numberLines_length (start step : Nat) :
    ∀ ls : List (List Char), (numberLines start step ls).length = ls.length := by
  intro ls
  induction ls generalizing start with
  | nil => rfl
  | cons l rest ih => simp [numberLines, ih]

theorem numberLines_getElem (step : Nat) :
    ∀ (ls : List (List Char)) (start i : Nat),
      (numberLines start step ls)[i]? = ls[i]?.map (fun l => (start + i * step, l)) := by
  intro ls
  induction ls with
  | nil => intro start i; rfl
  | cons l rest ih =>
    intro start i
    cases i with
    | zero => simp [numberLines]
    | succ i2 =>
      simp only [numberLines, List.getElem?_cons_succ]
      rw [ih (start + step) i2]
      cases rest[i2]? with
      | none => rfl
      | some x =>
        have he : start + step + i2 * step = start + (i2 + 1) * step := by ring
        simp [he]

theorem basicLines_length (inter : List Char) (start step : Nat) :
    (basicLines inter start step).length = (rawLines inter).length := by
  unfold basicLines
  simp [numberLines_length]

theorem basicLines_getElem (inter : List Char) (start step i : Nat) :
    (basicLines inter start step)[i]? =
      ((rawLines inter)[i]?).map (fun l =>
        pyDecAux (start + i * step + 1) (start + i * step) ++ ' ' ::
          patchLine (labelTable (numberLines start step (rawLines inter))) l) := by
  unfold basicLines
  rw [List.getElem?_map, numberLines_getElem]
  cases (rawLines inter)[i]? with
  | none => simp
  | some l => simp [outLine]

end Bas

/-- C5.  The Linearizer drops no instruction: for an intermediate-code
stream given as its (non-blank, newline-free) lines, the final program has
exactly one output line per input line, and the i-th output line is the
address `start + i * step` followed by a space and the patched text of the
i-th input line.  The source's defaults are `start = 10`, `step = 10`. -/
theorem linearizer_addresses (ls : List (List Char)) (start step : Nat)
    (hwf : ∀ l ∈ ls, '\n' ∉ l ∧ l.all isPySpace = false) :
    (Bas.basicLines (Bas.joinNl ls) start step).length = ls.length ∧
    ∀ i : Nat,
      (Bas.basicLines (Bas.joinNl ls) start step)[i]? =
        (ls[i]?).map (fun l =>
          pyDecAux (start + i * step + 1) (start + i * step) ++ ' ' ::
            Bas.patchLine
              (Bas.labelTable (Bas.numberLines start step (ls.map Bas.pyRstrip)))
              (Bas.pyRstrip l)) := by
  have hraw := Bas.rawLines_joinNl ls hwf
  constructor
  · rw [Bas.basicLines_length, hraw, List.length_map]
  · intro i
    rw [Bas.basicLines_getElem, hraw, List.getElem?_map]
    cases ls[i]? with
    | none => simp
    | some l => simp

/-- Witness for the addressing theorem: the three-line stream
`x = 5` / `REM L1` / `STOP` with the default configuration; the label
marker occupies its own address like any other instruction. -/
theorem linearizer_addresses_witness :
    (Bas.basicLines (Bas.joinNl ["x = 5".data, "REM L1".data, "STOP".data]) 10 10).length = 3 ∧
    (Bas.basicLines (Bas.joinNl ["x = 5".data, "REM L1".data, "STOP".data]) 10 10)[1]? =
      some ("20 REM L1".data) := by
  have h := linearizer_addresses ["x = 5".data, "REM L1".data, "STOP".data] 10 10 (by decide)
  refine ⟨h.1, ?_⟩
  rw [h.2 1]
  decide

namespace Bas

theorem subJumpAux_copy_head (kw : List Char) (tbl : List (List Char × Nat)) (c : Char)
    (rest : List Char) (f : Nat) (b : Bool) (h : kw.isPrefixOf (c :: rest) = false) :
    subJumpAux kw tbl (f + 1) b (c :: rest) = c :: subJumpAux kw tbl f (isWordChar c) rest := by
  rw [subJumpAux]
  cases b with
  | true => simp
  | false => simp [tryJump_none_of_no_kw h]

theorem prefix_of_append_left {pat u v : List Char} (h : pat.isPrefixOf (u ++ v) = true)
    (hl : pat.length ≤ u.length) : pat.isPrefixOf u = true := by
  induction pat generalizing u with
  | nil => simp
  | cons p ps ih =>
    cases u with
    | nil => simp at hl
    | cons a as =>
      simp only [List.cons_append, List.isPrefixOf, Bool.and_eq_true, beq_iff_eq] at h
      simp only [List.isPrefixOf, Bool.and_eq_true, beq_iff_eq]
      exact ⟨h.1, ih h.2 (by simp at hl; omega)⟩

theorem containsSeq_of_prefix_drop {pat xs : List Char} {i : Nat}
    (h : pat.isPrefixOf (xs.drop i) = true) : containsSeq pat xs = true := by
  induction xs generalizing i with
  | nil =>
    rw [List.drop_nil] at h
    rw [containsSeq]
    exact h
  | cons c cs ih =>
    cases i with
    | zero =>
      rw [List.drop_zero] at h
      rw [containsSeq]
      simp [h]
    | succ i2 =>
      rw [List.drop_succ_cons] at h
      rw [containsSeq]
      simp [ih h]

theorem no_prefix_region (pat pre tail : List Char)
    (hcont : containsSeq pat pre = false)
    (htail : tail[0]? = some ' ')
    (hnosp : ∀ j, j < pat.length → pat[j]? ≠ some ' ') :
    ∀ i, i < pre.length → pat.isPrefixOf ((pre ++ tail).drop i) = false := by
  intro i hi
  cases hp : pat.isPrefixOf ((pre ++ tail).drop i) with
  | false => rfl
  | true =>
    exfalso
    by_cases hle : i + pat.length ≤ pre.length
    · have hdrop : (pre ++ tail).drop i = pre.drop i ++ tail := by
        rw [List.drop_append_eq_append_drop]
        have h0 : i - pre.length = 0 := by omega
        rw [h0, List.drop_zero]
      rw [hdrop] at hp
      have hplen : pat.length ≤ (pre.drop i).length := by simp; omega
      have hpre2 : pat.isPrefixOf (pre.drop i) = true := prefix_of_append_left hp hplen
      have hcc : containsSeq pat pre = true := containsSeq_of_prefix_drop hpre2
      rw [hcont] at hcc
      exact Bool.noConfusion hcc
    · have hcross : pre.length < i + pat.length := by omega
      have hch := prefix_cross_char hi hcross hp
      rw [htail] at hch
      exact hnosp (pre.length - i) (by omega) hch

theorem patchLine_goto_unresolved (tbl : List (List Char × Nat)) (lab : List Char)
    (hlab : wfIdent lab = true) (htbl : lookupTbl tbl lab = none) :
    patchLine tbl (gotoLine lab) = gotoLine lab := by
  have hg : subJump GOTOkw tbl (gotoLine lab) = gotoLine lab := by
    show subJumpAux GOTOkw tbl (gotoLine lab).length false (gotoLine lab) = gotoLine lab
    have he : gotoLine lab = GOTOkw ++ ' ' :: lab := rfl
    rw [he]
    exact subJumpAux_match GOTOkw tbl lab _ (by simp [GOTOkw]) hlab (Nat.le_refl _) htbl
  have ht : subJump THENkw tbl (gotoLine lab) = gotoLine lab := by
    show subJumpAux THENkw tbl (gotoLine lab).length false (gotoLine lab) = gotoLine lab
    have he : gotoLine lab = (['G', 'O', 'T', 'O', ' '] : List Char) ++ lab := rfl
    rw [he]
    rw [subJumpAux_append_no_kw THENkw tbl (['G', 'O', 'T', 'O', ' '] : List Char) lab false _
      (Nat.le_refl _) (by intro i hi; have hi5 : i < 5 := (by simpa using hi); interval_cases i <;> simp [THENkw, List.isPrefixOf])]
    congr 1
    have hlen : (((['G', 'O', 'T', 'O', ' '] : List Char) ++ lab).length -
        (['G', 'O', 'T', 'O', ' '] : List Char).length) = lab.length := by simp
    rw [hlen, show prevWAfter false (['G', 'O', 'T', 'O', ' '] : List Char) = false from rfl]
    exact subJumpAux_wfIdent THENkw tbl lab _ (Nat.le_refl _) hlab
  unfold patchLine
  rw [hg, ht]

theorem patchLine_ifline_unresolved (tbl : List (List Char × Nat)) (c lab : List Char)
    (hlab : wfIdent lab = true) (htbl : lookupTbl tbl lab = none)
    (hG : containsSeq GOTOkw ('I' :: 'F' :: ' ' :: c) = false)
    (hT : containsSeq THENkw ('I' :: 'F' :: ' ' :: c) = false) :
    patchLine tbl (ifLine c lab) = ifLine c lab := by
  have hsplit : ifLine c lab =
      ('I' :: 'F' :: ' ' :: c) ++ (' ' :: 'T' :: 'H' :: 'E' :: 'N' :: ' ' :: lab) := by
    simp [ifLine]
  have hg : subJump GOTOkw tbl (ifLine c lab) = ifLine c lab := by
    show subJumpAux GOTOkw tbl (ifLine c lab).length false (ifLine c lab) = ifLine c lab
    rw [hsplit]
    rw [subJumpAux_append_no_kw GOTOkw tbl ('I' :: 'F' :: ' ' :: c)
      (' ' :: 'T' :: 'H' :: 'E' :: 'N' :: ' ' :: lab) false _ (Nat.le_refl _)
      (no_prefix_region GOTOkw ('I' :: 'F' :: ' ' :: c) _ hG (by simp)
        (by intro j hj; have hj4 : j < 4 := (by simpa [GOTOkw] using hj); interval_cases j <;> decide))]
    congr 1
    have hfuel : ((('I' :: 'F' :: ' ' :: c) ++
        (' ' :: 'T' :: 'H' :: 'E' :: 'N' :: ' ' :: lab)).length -
        ('I' :: 'F' :: ' ' :: c).length) =
        ('T' :: 'H' :: 'E' :: 'N' :: ' ' :: lab).length + 1 := by simp
    rw [hfuel]
    rw [subJumpAux_copy_head GOTOkw tbl ' ' _ _ _ (by simp [GOTOkw, List.isPrefixOf])]
    congr 1
    rw [show isWordChar ' ' = false from rfl]
    rw [show ('T' :: 'H' :: 'E' :: 'N' :: ' ' :: lab) =
      (['T', 'H', 'E', 'N', ' '] : List Char) ++ lab from rfl]
    rw [subJumpAux_append_no_kw GOTOkw tbl (['T', 'H', 'E', 'N', ' '] : List Char) lab false _
      (Nat.le_refl _) (by intro i hi; have hi5 : i < 5 := (by simpa using hi); interval_cases i <;> simp [GOTOkw, List.isPrefixOf])]
    congr 1
    have hlen2 : (((['T', 'H', 'E', 'N', ' '] : List Char) ++ lab).length -
        (['T', 'H', 'E', 'N', ' '] : List Char).length) = lab.length := by simp
    rw [hlen2, show prevWAfter false (['T', 'H', 'E', 'N', ' '] : List Char) = false from rfl]
    exact subJumpAux_wfIdent GOTOkw tbl lab _ (Nat.le_refl _) hlab
  have ht : subJump THENkw tbl (ifLine c lab) = ifLine c lab := by
    show subJumpAux THENkw tbl (ifLine c lab).length false (ifLine c lab) = ifLine c lab
    rw [hsplit]
    rw [subJumpAux_append_no_kw THENkw tbl ('I' :: 'F' :: ' ' :: c)
      (' ' :: 'T' :: 'H' :: 'E' :: 'N' :: ' ' :: lab) false _ (Nat.le_refl _)
      (no_prefix_region THENkw ('I' :: 'F' :: ' ' :: c) _ hT (by simp)
        (by intro j hj; have hj4 : j < 4 := (by simpa [THENkw] using hj); interval_cases j <;> decide))]
    congr 1
    have hfuel : ((('I' :: 'F' :: ' ' :: c) ++
        (' ' :: 'T' :: 'H' :: 'E' :: 'N' :: ' ' :: lab)).length -
        ('I' :: 'F' :: ' ' :: c).length) =
        ('T' :: 'H' :: 'E' :: 'N' :: ' ' :: lab).length + 1 := by simp
    rw [hfuel]
    rw [subJumpAux_copy_head THENkw tbl ' ' _ _ _ (by simp [THENkw, List.isPrefixOf])]
    congr 1
    rw [show isWordChar ' ' = false from rfl]
    rw [show ('T' :: 'H' :: 'E' :: 'N' :: ' ' :: lab) = THENkw ++ ' ' :: lab from rfl]
    exact subJumpAux_match THENkw tbl lab _ (by simp [THENkw]) hlab (Nat.le_refl _) htbl
  unfold patchLine
  rw [hg, ht]

end Bas

namespace Bas

theorem getLast_append_of_ne_nil {u v : List Char} (h : v ≠ []) :
    (u ++ v).getLast? = v.getLast? := by
  rw [List.getLast?_append]
  cases hv : v.getLast? with
  | none => exact absurd (List.getLast?_eq_none_iff.mp hv) h
  | some a => rfl

theorem mem_of_getLast_eq {l : List Char} {a : Char} (h : l.getLast? = some a) : a ∈ l := by
  rw [← List.head?_reverse] at h
  exact List.mem_reverse.mp (List.mem_of_mem_head? h)

theorem head_dropWhile (p : Char → Bool) :
    ∀ (l : List Char) (c : Char), (l.dropWhile p).head? = some c → p c = false := by
  intro l
  induction l with
  | nil => intro c h; simp at h
  | cons a as ih =>
    intro c h
    by_cases hpa : p a = true
    · rw [List.dropWhile_cons_of_pos hpa] at h
      exact ih c h
    · rw [List.dropWhile_cons_of_neg hpa] at h
      simp only [List.head?_cons, Option.some.injEq] at h
      subst h
      simpa using hpa

theorem pyRstrip_getLast_not_space (l : List Char) (c : Char)
    (h : (pyRstrip l).getLast? = some c) : isPySpace c = false := by
  unfold pyRstrip at h
  rw [List.getLast?_reverse] at h
  exact head_dropWhile isPySpace _ c h

theorem space_not_GT {ch : Char} (h : isPySpace ch = true) : ¬(ch = 'G') ∧ ¬(ch = 'T') := by
  simp only [isPySpace, Bool.or_eq_true, decide_eq_true_eq] at h
  rcases h with ((((rfl | rfl) | rfl) | rfl) | rfl) | rfl <;> exact ⟨by decide, by decide⟩

theorem prevWAfter_append (b : Bool) (u v : List Char) :
    prevWAfter b (u ++ v) = prevWAfter (prevWAfter b u) v := by
  induction u generalizing b with
  | nil => rfl
  | cons a as ih =>
    simp only [List.cons_append, prevWAfter]
    exact ih _

theorem prevWAfter_space_end :
    ∀ (sp : List Char) (b : Bool), sp ≠ [] → sp.all isPySpace = true →
      prevWAfter b sp = false := by
  intro sp
  induction sp with
  | nil => intro b h _; exact absurd rfl h
  | cons a as ih =>
    intro b _ hall
    simp only [List.all_cons, Bool.and_eq_true] at hall
    obtain ⟨h1, h2⟩ := hall
    cases as with
    | nil =>
      have hw : isWordChar a = false := by
        cases hwc : isWordChar a with
        | false => rfl
        | true =>
          rw [not_isPySpace_of_isWordChar hwc] at h1
          exact absurd h1 (by simp)
      exact hw
    | cons b2 bs =>
      exact ih (isWordChar a) (by simp) h2

theorem matchLabel_inv {l0 lab : List Char} (h : matchLabel l0 = some lab) :
    ∃ sp0 sp1 rest2,
      l0 = sp0 ++ ('R' :: 'E' :: 'M' :: (sp1 ++ (lab ++ rest2))) ∧
      sp0.all isPySpace = true ∧ sp1 ≠ [] ∧ sp1.all isPySpace = true ∧
      wfIdent lab = true ∧ rest2.all isPySpace = true := by
  unfold matchLabel at h
  split at h
  case isFalse => exact absurd h (by simp)
  case isTrue hpre =>
  split at h
  case isTrue => exact absurd h (by simp)
  case isFalse hsp =>
  rcases hti : takeIdent (((l0.dropWhile isPySpace).drop 3).dropWhile isPySpace) with _ | ⟨lab2, rest2⟩
  · rw [hti] at h
    exact absurd h (by simp)
  · rw [hti] at h
    have h2 : (if rest2.all isPySpace = true then some lab2 else none) = some lab := h
    cases hall : rest2.all isPySpace with
    | false =>
      rw [if_neg (by simp [hall])] at h2
      exact absurd h2 (by simp)
    | true =>
    rw [if_pos hall] at h2
    simp only [Option.some.injEq] at h2
    subst h2
    obtain ⟨t1, ht1, h2p⟩ := exists_cons_of_isPrefixOf_cons hpre
    obtain ⟨t2, ht2, h3p⟩ := exists_cons_of_isPrefixOf_cons h2p
    obtain ⟨t3, ht3, _⟩ := exists_cons_of_isPrefixOf_cons h3p
    have hA : l0.dropWhile isPySpace = 'R' :: 'E' :: 'M' :: t3 := by rw [ht1, ht2, ht3]
    have hdrop3 : (l0.dropWhile isPySpace).drop 3 = t3 := by rw [hA]; simp
    rw [hdrop3] at hsp hti
    obtain ⟨c, cs, hd, hid, hlabeq, hresteq⟩ := takeIdent_eq_some hti
    refine ⟨l0.takeWhile isPySpace, t3.takeWhile isPySpace, rest2, ?_, ?_, hsp, ?_, ?_, hall⟩
    · have hD : t3.dropWhile isPySpace = lab2 ++ rest2 := by
        rw [hd, hlabeq, hresteq]
        rw [show (c :: cs.takeWhile isWordChar) ++ cs.dropWhile isWordChar =
          c :: (cs.takeWhile isWordChar ++ cs.dropWhile isWordChar) from rfl]
        rw [List.takeWhile_append_dropWhile]
      have ht3s : t3 = t3.takeWhile isPySpace ++ (lab2 ++ rest2) := by
        rw [← hD, List.takeWhile_append_dropWhile]
      calc l0 = l0.takeWhile isPySpace ++ l0.dropWhile isPySpace :=
            (List.takeWhile_append_dropWhile isPySpace l0).symm
        _ = _ := by rw [hA, ← ht3s]
    · rw [List.all_eq_true]
      intro x hx
      exact List.mem_takeWhile_imp hx
    · rw [List.all_eq_true]
      intro x hx
      exact List.mem_takeWhile_imp hx
    · rw [hlabeq]
      simp only [wfIdent, hid, Bool.true_and]
      rw [List.all_eq_true]
      intro x hx
      exact List.mem_takeWhile_imp hx

theorem patchLine_label_line (tbl : List (List Char × Nat)) (l0 lab : List Char)
    (hm : matchLabel l0 = some lab)
    (hlast : ∀ c, l0.getLast? = some c → isPySpace c = false) :
    patchLine tbl l0 = l0 := by
  obtain ⟨sp0, sp1, rest2, hdec, hsp0, hsp1ne, hsp1, hwf, hrest2⟩ := matchLabel_inv hm
  have hr2 : rest2 = [] := by
    by_contra hne
    obtain ⟨cl, hcl⟩ : ∃ a, rest2.getLast? = some a := by
      cases hv : rest2.getLast? with
      | none => exact absurd (List.getLast?_eq_none_iff.mp hv) hne
      | some a => exact ⟨a, rfl⟩
    have hl0last : l0.getLast? = some cl := by
      rw [hdec]
      have hassoc : sp0 ++ ('R' :: 'E' :: 'M' :: (sp1 ++ (lab ++ rest2))) =
          ((sp0 ++ ('R' :: 'E' :: 'M' :: sp1)) ++ lab) ++ rest2 := by simp
      rw [hassoc, getLast_append_of_ne_nil hne, hcl]
    have hspc : isPySpace cl = true :=
      List.all_eq_true.mp hrest2 cl (mem_of_getLast_eq hcl)
    rw [hlast cl hl0last] at hspc
    exact Bool.noConfusion hspc
  subst hr2
  rw [List.append_nil] at hdec
  have hx : l0 = (sp0 ++ ('R' :: 'E' :: 'M' :: sp1)) ++ lab := by rw [hdec]; simp
  have hpass : ∀ (kw : List Char) (k0 : Char) (kr : List Char), kw = k0 :: kr →
      (k0 = 'G' ∨ k0 = 'T') → subJump kw tbl l0 = l0 := by
    intro kw k0 kr hkw hk0
    show subJumpAux kw tbl l0.length false l0 = l0
    rw [hx, hkw]
    rw [subJumpAux_append_no_kw (k0 :: kr) tbl (sp0 ++ ('R' :: 'E' :: 'M' :: sp1)) lab false _
      (Nat.le_refl _) (no_prefix_of_head_notin k0 kr _ lab ?hmem)]
    case hmem =>
      intro ch hch
      rcases List.mem_append.mp hch with h1 | h2
      · have hsc : isPySpace ch = true := List.all_eq_true.mp hsp0 ch h1
        rcases space_not_GT hsc with ⟨hg2, ht2⟩
        rcases hk0 with rfl | rfl
        · exact hg2
        · exact ht2
      · simp only [List.mem_cons] at h2
        rcases h2 with rfl | rfl | rfl | h2
        · rcases hk0 with rfl | rfl <;> decide
        · rcases hk0 with rfl | rfl <;> decide
        · rcases hk0 with rfl | rfl <;> decide
        · have hsc : isPySpace ch = true := List.all_eq_true.mp hsp1 ch h2
          rcases space_not_GT hsc with ⟨hg2, ht2⟩
          rcases hk0 with rfl | rfl
          · exact hg2
          · exact ht2
    congr 1
    have hlen : ((sp0 ++ ('R' :: 'E' :: 'M' :: sp1)) ++ lab).length -
        (sp0 ++ ('R' :: 'E' :: 'M' :: sp1)).length = lab.length := by simp; omega
    rw [hlen]
    have hpw : prevWAfter false (sp0 ++ ('R' :: 'E' :: 'M' :: sp1)) = false := by
      have hsplit2 : sp0 ++ ('R' :: 'E' :: 'M' :: sp1) = (sp0 ++ ['R', 'E', 'M']) ++ sp1 := by
        simp
      rw [hsplit2, prevWAfter_append]
      exact prevWAfter_space_end sp1 _ hsp1ne hsp1
    rw [hpw]
    exact subJumpAux_wfIdent (k0 :: kr) tbl lab _ (Nat.le_refl _) hwf
  unfold patchLine
  rw [hpass GOTOkw 'G' ['O', 'T', 'O'] rfl (Or.inl rfl),
    hpass THENkw 'T' ['H', 'E', 'N'] rfl (Or.inr rfl)]

end Bas

/-- C6.  A `GOTO` or `IF ... THEN` jump whose target label is absent from
the label-to-address table is left with the original symbolic name in
place: the Linearizer's patching passes return the jump line unchanged, so
the output line is just the address prefix followed by the original
symbolic jump.  The condition of the `IF` line must not itself contain the
`GOTO`/`THEN` keywords, which is the case for every comparison the code
generators emit. -/
theorem linearizer_unresolved_label_kept (tbl : List (List Char × Nat)) (c lab : List Char)
    (n : Nat) (hlab : Bas.wfIdent lab = true) (htbl : Bas.lookupTbl tbl lab = none)
    (hG : containsSeq Bas.GOTOkw ('I' :: 'F' :: ' ' :: c) = false)
    (hT : containsSeq Bas.THENkw ('I' :: 'F' :: ' ' :: c) = false) :
    Bas.outLine tbl (n, Bas.gotoLine lab) = pyDecAux (n + 1) n ++ ' ' :: Bas.gotoLine lab ∧
    Bas.outLine tbl (n, Bas.ifLine c lab) = pyDecAux (n + 1) n ++ ' ' :: Bas.ifLine c lab := by
  constructor
  · have h1 : Bas.outLine tbl (n, Bas.gotoLine lab) =
        pyDecAux (n + 1) n ++ ' ' :: Bas.patchLine tbl (Bas.gotoLine lab) := rfl
    rw [h1, Bas.patchLine_goto_unresolved tbl lab hlab htbl]
  · have h2 : Bas.outLine tbl (n, Bas.ifLine c lab) =
        pyDecAux (n + 1) n ++ ' ' :: Bas.patchLine tbl (Bas.ifLine c lab) := rfl
    rw [h2, Bas.patchLine_ifline_unresolved tbl c lab hlab htbl hG hT]

/-- Witness: with the table built from the single marker `REM L1`, the
unresolved target `L9` is kept symbolic in both jump forms. -/
theorem linearizer_unresolved_label_kept_witness :
    Bas.outLine (Bas.labelTable (Bas.numberLines 10 10 ["REM L1".data])) (40,
      Bas.gotoLine "L9".data) = pyDecAux 41 40 ++ ' ' :: Bas.gotoLine "L9".data ∧
    Bas.outLine (Bas.labelTable (Bas.numberLines 10 10 ["REM L1".data])) (40,
      Bas.ifLine "x = 0".data "L9".data) =
        pyDecAux 41 40 ++ ' ' :: Bas.ifLine "x = 0".data "L9".data :=
  linearizer_unresolved_label_kept (Bas.labelTable (Bas.numberLines 10 10 ["REM L1".data]))
    "x = 0".data "L9".data 40 (by decide) (by decide) (by decide) (by decide)

/-- C4 (counterexample).  The label-marker lines are numbered and kept in
the final output: linearizing `REM L1\nGOTO L1` yields a first line
`10 REM L1`, which is a `REM` label-marker line (its text matches
`LABEL_RE`), not one of the five claimed instruction forms. -/
theorem linearizer_rem_line_in_output :
    Bas.intermediate_to_basic "REM L1\nGOTO L1" 10 10 = "10 REM L1\n20 GOTO 10" ∧
    Bas.matchLabel ("REM L1").data = some ("L1").data :=
  ⟨by decide, by decide⟩

/-- C4 (amended).  Every stream line whose right-stripped text matches the
label regex `LABEL_RE` is retained in the final output: it is numbered
like any other line and the patching passes leave its text unchanged, so
the i-th output line is the address followed by the original (stripped)
`REM` line. -/
theorem linearizer_label_lines_retained (ls : List (List Char)) (start step : Nat)
    (hwf : ∀ l ∈ ls, '\n' ∉ l ∧ l.all isPySpace = false)
    (i : Nat) (l lab : List Char) (hi : ls[i]? = some l)
    (hm : Bas.matchLabel (Bas.pyRstrip l) = some lab) :
    (Bas.basicLines (Bas.joinNl ls) start step)[i]? =
      some (pyDecAux (start + i * step + 1) (start + i * step) ++ ' ' :: Bas.pyRstrip l) := by
  rw [Bas.basicLines_getElem, Bas.rawLines_joinNl ls hwf, List.getElem?_map, hi]
  have hp := Bas.patchLine_label_line
    (Bas.labelTable (Bas.numberLines start step (ls.map Bas.pyRstrip))) (Bas.pyRstrip l) lab hm
    (fun c hc => Bas.pyRstrip_getLast_not_space l c hc)
  simp [hp]

/-- Witness: in the two-line stream `REM L1` / `GOTO L1`, the marker line
is retained as output line 0, numbered 10. -/
theorem linearizer_label_lines_retained_witness :
    (Bas.basicLines (Bas.joinNl ["REM L1".data, "GOTO L1".data]) 10 10)[0]? =
      some (pyDecAux (10 + 0 * 10 + 1) (10 + 0 * 10) ++ ' ' :: Bas.pyRstrip ("REM L1").data) :=
  linearizer_label_lines_retained ["REM L1".data, "GOTO L1".data] 10 10 (by decide) 0
    ("REM L1").data ("L1").data (by decide) (by decide)

namespace Inl

theorem decDigit_isDigit (n : Nat) : (decDigit n).isDigit = true := by
  unfold decDigit
  split <;> decide

theorem decDigit_toNat (n : Nat) (h : n < 10) : (decDigit n).toNat - 48 = n := by
  interval_cases n <;> decide

theorem pyDecAux_digits : ∀ (f n : Nat), (pyDecAux f n).all Char.isDigit = true := by
  intro f
  induction f with
  | zero => intro n; rfl
  | succ f ih =>
    intro n
    rw [pyDecAux]
    split
    · simp [decDigit_isDigit]
    · simp [List.all_append, ih, decDigit_isDigit]

theorem decVal_append_digit (xs : List Char) (c : Char) :
    decVal (xs ++ [c]) = decVal xs * 10 + (c.toNat - 48) := by
  unfold decVal
  rw [List.foldl_append]
  rfl

theorem pyDecAux_val : ∀ (f n : Nat), n < f → decVal (pyDecAux f n) = n := by
  intro f
  induction f with
  | zero => intro n h; omega
  | succ f ih =>
    intro n h
    rw [pyDecAux]
    split
    · next h10 =>
      show decVal ([] ++ [decDigit n]) = n
      rw [decVal_append_digit, decDigit_toNat n h10]
      simp [decVal]
    · next h10 =>
      rw [decVal_append_digit]
      have hdiv : n / 10 < f := by
        have h1 : 0 < n := by omega
        have h2 : n / 10 < n := Nat.div_lt_self h1 (by omega)
        omega
      rw [ih (n / 10) hdiv, decDigit_toNat (n % 10) (Nat.mod_lt n (by omega))]
      omega

theorem pyDec_inj {n1 n2 : Nat} (h : pyDecAux (n1 + 1) n1 = pyDecAux (n2 + 1) n2) :
    n1 = n2 := by
  have h1 := pyDecAux_val (n1 + 1) n1 (by omega)
  have h2 := pyDecAux_val (n2 + 1) n2 (by omega)
  rw [h] at h1
  rw [h1] at h2
  exact h2

theorem takeWhile_digits_append (ds b : List Char) (hds : ds.all Char.isDigit = true)
    (hb : ∀ c cs, b = c :: cs → c.isDigit = false) :
    (ds ++ b).takeWhile Char.isDigit = ds := by
  induction ds with
  | nil =>
    cases b with
    | nil => rfl
    | cons c cs =>
      simp only [List.nil_append]
      rw [List.takeWhile_cons_of_neg]
      simp [hb c cs rfl]
  | cons d ds ih =>
    simp only [List.all_cons, Bool.and_eq_true] at hds
    simp only [List.cons_append]
    rw [List.takeWhile_cons_of_pos (by simp [hds.1])]
    rw [ih hds.2]

theorem baseOk_head {b : String} (hb : baseOk b = true) :
    ∀ c cs, b.data = c :: cs → c.isDigit = false := by
  intro c cs h
  unfold baseOk at hb
  rw [h] at hb
  simpa using hb

theorem fresh_name_inj {n1 n2 : Nat} {b1 b2 k1 k2 : String}
    (hk1 : k1 = "P" ∨ k1 = "L") (hk2 : k2 = "P" ∨ k2 = "L")
    (hb1 : baseOk b1 = true) (hb2 : baseOk b2 = true)
    (h : k1 ++ pyDec n1 ++ b1 = k2 ++ pyDec n2 ++ b2) : n1 = n2 := by
  have hd : (k1 ++ pyDec n1 ++ b1).data = (k2 ++ pyDec n2 ++ b2).data := by rw [h]
  rw [String.data_append, String.data_append, String.data_append, String.data_append] at hd
  have hp1 : (pyDec n1).data = pyDecAux (n1 + 1) n1 := rfl
  have hp2 : (pyDec n2).data = pyDecAux (n2 + 1) n2 := rfl
  rw [hp1, hp2] at hd
  have htail : pyDecAux (n1 + 1) n1 ++ b1.data = pyDecAux (n2 + 1) n2 ++ b2.data := by
    rcases hk1 with rfl | rfl <;> rcases hk2 with rfl | rfl <;>
      first
      | simpa using hd
      | simp at hd
  have ht1 : (pyDecAux (n1 + 1) n1 ++ b1.data).takeWhile Char.isDigit =
      pyDecAux (n1 + 1) n1 :=
    takeWhile_digits_append _ _ (pyDecAux_digits _ _) (baseOk_head hb1)
  have ht2 : (pyDecAux (n2 + 1) n2 ++ b2.data).takeWhile Char.isDigit =
      pyDecAux (n2 + 1) n2 :=
    takeWhile_digits_append _ _ (pyDecAux_digits _ _) (baseOk_head hb2)
  apply pyDec_inj
  rw [← ht1, ← ht2, htail]

theorem allocSeq_get : ∀ (reqs : List (String × String)) (v i : Nat),
    ((allocSeq v reqs).1)[i]? =
      (reqs[i]?).map (fun p => p.2 ++ pyDec (v + i + 1) ++ p.1) := by
  intro reqs
  induction reqs with
  | nil => intro v i; simp [allocSeq]
  | cons r rest ih =>
    intro v i
    obtain ⟨b, k⟩ := r
    cases i with
    | zero => simp [allocSeq, fresh_var]
    | succ i =>
      have h1 : ((allocSeq v ((b, k) :: rest)).1)[i + 1]? =
          ((allocSeq (v + 1) rest).1)[i]? := by
        simp [allocSeq, fresh_var]
      rw [h1, ih (v + 1) i]
      have h2 : v + 1 + i + 1 = v + (i + 1) + 1 := by omega
      rw [h2]
      simp

theorem allocSeq_length : ∀ (reqs : List (String × String)) (v : Nat),
    ((allocSeq v reqs).1).length = reqs.length := by
  intro reqs
  induction reqs with
  | nil => intro v; rfl
  | cons r rest ih =>
    intro v
    obtain ⟨b, k⟩ := r
    simp [allocSeq, fresh_var, ih]

theorem mem_siteReqs {r : String × String} {params locals_ : List String}
    (h : r ∈ siteReqs params locals_) :
    (r.2 = "P" ∧ r.1 ∈ params) ∨ (r.2 = "L" ∧ r.1 ∈ locals_) := by
  unfold siteReqs at h
  rcases List.mem_append.mp h with h1 | h1
  · obtain ⟨p, hp, rfl⟩ := List.mem_map.mp h1
    exact Or.inl ⟨rfl, hp⟩
  · obtain ⟨l, hl, rfl⟩ := List.mem_map.mp h1
    exact Or.inr ⟨rfl, hl⟩

end Inl

/-- C8.  Freshness of the inliner's generated binding names: with the
whole compilation's parameter/local requests (one call site after the
other, including repeated, nested or recursive expansions of the same
definition) threaded through the single `fresh_var` counter, no two
allocated names coincide — provided every base name is a lexer identifier
(which never starts with a digit).  In particular no two parameter/local
`Assign` targets share a fresh name. -/
theorem inliner_fresh_names_unique (v : Nat) (sites : List (List String × List String))
    (hb : ∀ s ∈ sites, (∀ p ∈ s.1, Inl.baseOk p = true) ∧ (∀ l ∈ s.2, Inl.baseOk l = true)) :
    ((Inl.compile_fresh v sites).1).Pairwise (fun a b => a ≠ b) := by
  have hreq : ∀ r ∈ (sites.map (fun s => Inl.siteReqs s.1 s.2)).flatten,
      (r.2 = "P" ∨ r.2 = "L") ∧ Inl.baseOk r.1 = true := by
    intro r hr
    obtain ⟨l, hl, hrl⟩ := List.mem_flatten.mp hr
    obtain ⟨s, hs, rfl⟩ := List.mem_map.mp hl
    rcases Inl.mem_siteReqs hrl with ⟨hk, hm⟩ | ⟨hk, hm⟩
    · exact ⟨Or.inl hk, (hb s hs).1 r.1 hm⟩
    · exact ⟨Or.inr hk, (hb s hs).2 r.1 hm⟩
  unfold Inl.compile_fresh
  rw [List.pairwise_iff_getElem]
  intro i j hi hj hij hEq
  rw [Inl.allocSeq_length] at hi hj
  have hgi := Inl.allocSeq_get ((sites.map (fun s => Inl.siteReqs s.1 s.2)).flatten) v i
  have hgj := Inl.allocSeq_get ((sites.map (fun s => Inl.siteReqs s.1 s.2)).flatten) v j
  rw [List.getElem?_eq_getElem (by omega), List.getElem?_eq_getElem hi] at hgi
  rw [List.getElem?_eq_getElem (by omega), List.getElem?_eq_getElem hj] at hgj
  simp only [Option.map_some', Option.some.injEq] at hgi hgj
  have hri := hreq _ (List.getElem?_mem (List.getElem?_eq_getElem hi))
  have hrj := hreq _ (List.getElem?_mem (List.getElem?_eq_getElem hj))
  have hn := Inl.fresh_name_inj hri.1 hrj.1 hri.2 hrj.2 (by rw [← hgi, ← hgj, hEq])
  omega

/-- Witness: two call sites of the same one-parameter, one-local procedure
starting from a fresh counter; the three allocated names are pairwise
distinct. -/
theorem inliner_fresh_names_unique_witness :
    (Inl.compile_fresh 0 [(["x"], ["y"]), (["x"], [])]).1 = ["P1x", "L2y", "P3x"] ∧
    ((Inl.compile_fresh 0 [(["x"], ["y"]), (["x"], [])]).1).Pairwise (fun a b => a ≠ b) :=
  ⟨rfl, inliner_fresh_names_unique 0 [(["x"], ["y"]), (["x"], [])] (by decide)⟩

theorem sem_check_args_nums (sym : Sem.Symtab) (ctx : Sem.Ctx) :
    ∀ (args : List Sem.SAtom) (st : Sem.St),
      (∀ a ∈ args, ∃ v, a = Sem.SAtom.num v) → Sem.check_args sym ctx args st = st := by
  intro args
  induction args with
  | nil => intro st _; rfl
  | cons a rest ih =>
    intro st h
    obtain ⟨v, rfl⟩ := h a (by simp)
    rw [Sem.check_args]
    exact ih st (fun a ha => h a (by simp [ha]))

/-- C2.  A statement call whose argument count differs from the callee's
declared parameter count is reported by `check_instr` with exactly one
arity error naming the expected and the supplied counts; when the
arguments are numeric literals no other error is added, and the message is
the dedicated arity message, not a type-mismatch one. -/
theorem sem_call_arity_error (sym : Sem.Symtab) (ctx : Sem.Ctx) (name : String)
    (args : List Sem.SAtom) (st : Sem.St) (ps ls : List String)
    (hp : Sem.lookupA sym.procs name = some (ps, ls))
    (hne : ps.length ≠ args.length)
    (hnum : ∀ a ∈ args, ∃ v, a = Sem.SAtom.num v) :
    (Sem.check_instr sym ctx (.call name args) st).errs =
      st.errs ++ ["Arity error in proc '" ++ name ++ "': expected " ++
        pyDec ps.length ++ ", got " ++ pyDec args.length] := by
  have hb : (ps.length != args.length) = true := by simpa using hne
  have h1 : Sem.check_instr sym ctx (.call name args) st =
      Sem.check_args sym ctx args (Sem.addErr st ("Arity error in proc '" ++ name ++
        "': expected " ++ pyDec ps.length ++ ", got " ++ pyDec args.length)) := by
    simp only [Sem.check_instr, hp, hb, if_true]
  rw [h1, sem_check_args_nums sym ctx args _ hnum]
  rfl

/-- Witness: calling `add(1)` where `add` has parameters `a, b` yields the
single error `Arity error in proc 'add': expected 2, got 1`. -/
theorem sem_call_arity_error_witness :
    (Sem.check_instr ⟨[], [("add", (["a", "b"], []))], [], []⟩
      ⟨"main", "Main", [], [], "main"⟩ (.call "add" [.num 1]) ⟨[], [], []⟩).errs =
      ["Arity error in proc 'add': expected 2, got 1"] := by
  have h := sem_call_arity_error ⟨[], [("add", (["a", "b"], []))], [], []⟩
    ⟨"main", "Main", [], [], "main"⟩ "add" [.num 1] ⟨[], [], []⟩ ["a", "b"] []
    rfl (by decide) (by intro a ha; simp at ha; exact ⟨1, ha⟩)
  rw [h]
  rfl

/-- C3.  An assignment whose right-hand-side term types to boolean is
reported by `_check_instr` with exactly one `TYPE_MISMATCH` error: the
append of the single message `Expected numeric type, got boolean` in the
context of the assignment's right-hand side. -/
theorem tck_assign_boolean_rhs (v : Tck.TkVar) (t : Tck.TkTerm) (es : List Tck.TkError)
    (h : Tck.check_term t es = ("boolean", es)) :
    Tck.check_instr (.assignTerm v t) es =
      (false, es ++ [⟨.TYPE_MISMATCH, "Expected numeric type, got boolean",
        some "assignment statement", some "right-hand side expression"⟩]) := by
  have h1 : Tck.check_term_numeric t es =
      (false, es ++ [⟨.TYPE_MISMATCH, "Expected numeric type, got boolean",
        some "assignment statement", some "right-hand side expression"⟩]) := by
    unfold Tck.check_term_numeric
    rw [h]
    rfl
  simp only [Tck.check_instr, Tck.get_var_type, h1]
  rfl

/-- Witness: `x = ( 1 eq 1 )` — the comparison term types to boolean and
the checker reports the one type-mismatch error. -/
theorem tck_assign_boolean_rhs_witness :
    Tck.check_instr (.assignTerm ⟨1, "x"⟩
      (.binop (.atom (.num 2 1)) "EQ" (.atom (.num 3 1)))) [] =
      (false, [⟨.TYPE_MISMATCH, "Expected numeric type, got boolean",
        some "assignment statement", some "right-hand side expression"⟩]) := by
  have h := tck_assign_boolean_rhs ⟨1, "x"⟩
    (.binop (.atom (.num 2 1)) "EQ" (.atom (.num 3 1))) []
    (by simp [Tck.check_term, Tck.check_binop_term, Tck.check_atom, Tck.get_binop_type])
  simpa using h

/-- C9.  Scope order of `resolve_var`: inside a procedure or function body
a name resolves first against the definition's own parameters, then its
locals, then the global table; inside Main against Main's variables, then
the global table.  When no scope declares the name, the resolver returns
no declaration and appends exactly the one undeclared-variable error to
the state — the pass is not aborted. -/
theorem sem_resolve_var_scope_order (sym : Sem.Symtab) (ctx : Sem.Ctx) (name : String)
    (st : Sem.St) :
    ((ctx.kind = "proc" ∨ ctx.kind = "func") →
      (ctx.params.contains name = true →
        Sem.resolve_var sym ctx name st =
          (Sem.find_decl_node st.decls name ctx.scope_label "param", st)) ∧
      (ctx.params.contains name = false → ctx.locals.contains name = true →
        Sem.resolve_var sym ctx name st =
          (Sem.find_decl_node st.decls name ctx.scope_label "local", st)) ∧
      (ctx.params.contains name = false → ctx.locals.contains name = false →
        ∀ nid, Sem.lookupA sym.globals name = some nid →
          Sem.resolve_var sym ctx name st = (some nid, st)) ∧
      (ctx.params.contains name = false → ctx.locals.contains name = false →
        Sem.lookupA sym.globals name = none →
          Sem.resolve_var sym ctx name st =
            (none, Sem.addErr st ("Undeclared variable: '" ++ name ++ "' in " ++
              ctx.scope_label)))) ∧
    (ctx.kind = "main" →
      (sym.mainVars.contains name = true →
        Sem.resolve_var sym ctx name st =
          (Sem.find_decl_node st.decls name "Main" "main", st)) ∧
      (sym.mainVars.contains name = false →
        ∀ nid, Sem.lookupA sym.globals name = some nid →
          Sem.resolve_var sym ctx name st = (some nid, st)) ∧
      (sym.mainVars.contains name = false → Sem.lookupA sym.globals name = none →
        Sem.resolve_var sym ctx name st =
          (none, Sem.addErr st ("Undeclared variable: '" ++ name ++ "' in " ++
            ctx.scope_label)))) := by
  constructor
  · intro hk
    have hk2 : (ctx.kind == "proc" || ctx.kind == "func") = true := by
      rcases hk with h | h <;> simp [h]
    refine ⟨?_, ?_, ?_, ?_⟩
    · intro hp
      have hp2 : name ∈ ctx.params := by simpa using hp
      simp [Sem.resolve_var, hk2, hp2]
    · intro hp hl
      have hp2 : name ∉ ctx.params := by simpa using hp
      have hl2 : name ∈ ctx.locals := by simpa using hl
      simp [Sem.resolve_var, hk2, hp2, hl2]
    · intro hp hl nid hg
      have hp2 : name ∉ ctx.params := by simpa using hp
      have hl2 : name ∉ ctx.locals := by simpa using hl
      simp [Sem.resolve_var, hk2, hp2, hl2, hg]
    · intro hp hl hg
      have hp2 : name ∉ ctx.params := by simpa using hp
      have hl2 : name ∉ ctx.locals := by simpa using hl
      simp [Sem.resolve_var, hk2, hp2, hl2, hg]
  · intro hk
    have hk1 : (ctx.kind == "proc" || ctx.kind == "func") = false := by simp [hk]
    have hk2 : (ctx.kind == "main") = true := by simp [hk]
    refine ⟨?_, ?_, ?_⟩
    · intro hm
      have hm2 : name ∈ sym.mainVars := by simpa using hm
      simp [Sem.resolve_var, hk1, hk2, hm2]
    · intro hm nid hg
      have hm2 : name ∉ sym.mainVars := by simpa using hm
      simp [Sem.resolve_var, hk1, hk2, hm2, hg]
    · intro hm hg
      have hm2 : name ∉ sym.mainVars := by simpa using hm
      simp [Sem.resolve_var, hk1, hk2, hm2, hg]

/-- Witness: in a procedure scope `p` with parameter `a`, local `b` and
global `g`, the name `a` resolves as a parameter, `b` as a local, `g`
against the global table, and the unknown `zz` produces exactly the one
undeclared-variable error. -/
theorem sem_resolve_var_scope_order_witness :
    Sem.resolve_var ⟨[("g", 7)], [], [], ["m"]⟩ ⟨"proc", "p", ["a"], ["b"], "p"⟩ "a"
      ⟨[(1, ⟨"a", "param", "p", "int"⟩), (2, ⟨"b", "local", "p", "int"⟩)], [], []⟩ =
      (some 1, ⟨[(1, ⟨"a", "param", "p", "int"⟩), (2, ⟨"b", "local", "p", "int"⟩)], [], []⟩) ∧
    Sem.resolve_var ⟨[("g", 7)], [], [], ["m"]⟩ ⟨"proc", "p", ["a"], ["b"], "p"⟩ "b"
      ⟨[(1, ⟨"a", "param", "p", "int"⟩), (2, ⟨"b", "local", "p", "int"⟩)], [], []⟩ =
      (some 2, ⟨[(1, ⟨"a", "param", "p", "int"⟩), (2, ⟨"b", "local", "p", "int"⟩)], [], []⟩) ∧
    Sem.resolve_var ⟨[("g", 7)], [], [], ["m"]⟩ ⟨"proc", "p", ["a"], ["b"], "p"⟩ "g"
      ⟨[], [], []⟩ = (some 7, ⟨[], [], []⟩) ∧
    Sem.resolve_var ⟨[("g", 7)], [], [], ["m"]⟩ ⟨"proc", "p", ["a"], ["b"], "p"⟩ "zz"
      ⟨[], [], []⟩ = (none, ⟨[], [], ["Undeclared variable: 'zz' in p"]⟩) := by
  refine ⟨?_, ?_, ?_, ?_⟩
  · rw [((sem_resolve_var_scope_order ⟨[("g", 7)], [], [], ["m"]⟩
      ⟨"proc", "p", ["a"], ["b"], "p"⟩ "a"
      ⟨[(1, ⟨"a", "param", "p", "int"⟩), (2, ⟨"b", "local", "p", "int"⟩)], [], []⟩).1
        (Or.inl rfl)).1 (by decide)]
    rfl
  · rw [((sem_resolve_var_scope_order ⟨[("g", 7)], [], [], ["m"]⟩
      ⟨"proc", "p", ["a"], ["b"], "p"⟩ "b"
      ⟨[(1, ⟨"a", "param", "p", "int"⟩), (2, ⟨"b", "local", "p", "int"⟩)], [], []⟩).1
        (Or.inl rfl)).2.1 (by decide) (by decide)]
    rfl
  · exact ((sem_resolve_var_scope_order ⟨[("g", 7)], [], [], ["m"]⟩
      ⟨"proc", "p", ["a"], ["b"], "p"⟩ "g" ⟨[], [], []⟩).1
        (Or.inl rfl)).2.2.1 (by decide) (by decide) 7 rfl
  · exact ((sem_resolve_var_scope_order ⟨[("g", 7)], [], [], ["m"]⟩
      ⟨"proc", "p", ["a"], ["b"], "p"⟩ "zz" ⟨[], [], []⟩).1
        (Or.inl rfl)).2.2.2 (by decide) (by decide) rfl

/-- C10.  `inline_code` is atomic: when any step of the
definition-extraction/call-expansion pipeline throws, the original
intermediate code is returned unchanged, and on success the result is
exactly the pipeline's fully processed stream — never a partially
rewritten one. -/
theorem inliner_inline_code_atomic (fuel : Nat) (ast : Pyi.Py) (inter : String) :
    (∀ e, Pyi.inlinePipeline fuel ast inter = .error e →
      Pyi.inline_code fuel ast inter = inter) ∧
    (∀ s, Pyi.inlinePipeline fuel ast inter = .ok s →
      Pyi.inline_code fuel ast inter = s) := by
  constructor
  · intro e he
    unfold Pyi.inline_code
    rw [he]
  · intro s hs
    unfold Pyi.inline_code
    rw [hs]

/-- Witness: on the malformed AST the pipeline raises `IndexError` while
extracting definitions, and `inline_code` returns the input unchanged. -/
theorem inliner_inline_code_atomic_witness :
    Pyi.inlinePipeline 5 astBad "x = CALL f(1)" = .error "IndexError" ∧
    Pyi.inline_code 5 astBad "x = CALL f(1)" = "x = CALL f(1)" :=
  ⟨rfl, (inliner_inline_code_atomic 5 astBad "x = CALL f(1)").1 "IndexError" rfl⟩
